import Mathlib

/-!
Verification development for the `simpletools` text-table library
(`src/text.py`): a labeled two-dimensional table builder and fixed-width
renderer (class `SimpleTable` with its `HeadAttr`/`TableAttr`/`Border`
value types and the `Index`/`AttrArray` wrappers).

The Python code is shallowly embedded: mutable state becomes explicit
state passing over a `STable` structure, Python exceptions become
`Except PyErr`, Python `list` indexing/insertion/deletion semantics
(negative indices, clamping on insert) are modelled by the `py*` helpers,
and `str.split` / `str.ljust` / `str.center` / `str.rjust` / slicing are
reimplemented faithfully over `String`.
-/

deriving instance DecidableEq for Except

namespace SimpleTools

/-- Python exception outcomes that the embedded code can raise. -/
inductive PyErr
  | keyError (msg : String)
  | indexError
  | valueError (msg : String)
  | nameError (msg : String)
  | attributeError
  | syntaxError (msg : String)
deriving DecidableEq, Repr

/-- Resolve a (possibly negative) Python index against a list length;
`none` when the access would raise `IndexError`. -/
def pyIdx (len : Nat) (i : Int) : Option Nat :=
  let j : Int := if i < 0 then i + len else i
  if 0 ≤ j ∧ j < len then some j.toNat else none

/-- Python `l[i]` (with negative-index wraparound, `IndexError` otherwise). -/
def pyGet {α : Type} (l : List α) (i : Int) : Except PyErr α :=
  match pyIdx l.length i with
  | some n =>
    match l.get? n with
    | some a => .ok a
    | none => .error .indexError
  | none => .error .indexError

/-- Python `l[i] = a`. -/
def pySet {α : Type} (l : List α) (i : Int) (a : α) : Except PyErr (List α) :=
  match pyIdx l.length i with
  | some n => .ok (l.set n a)
  | none => .error .indexError

/-- Python `del l[i]`. -/
def pyDel {α : Type} (l : List α) (i : Int) : Except PyErr (List α) :=
  match pyIdx l.length i with
  | some n => .ok (l.eraseIdx n)
  | none => .error .indexError

/-- Python `l.insert(i, a)`: clamps out-of-range positions, never raises. -/
def pyInsertPos (len : Nat) (i : Int) : Nat :=
  if i < 0 then ((len : Int) + i).toNat else min i.toNat len

/-- Python `l.insert(i, a)`. -/
def pyInsert {α : Type} (l : List α) (i : Int) (a : α) : List α :=
  let n := pyInsertPos l.length i
  l.take n ++ a :: l.drop n

/-- `' ' * n`. -/
def spaces (n : Nat) : String := String.mk (List.replicate n ' ')

/-- Python `s * n` for strings. -/
def repeatStr (s : String) (n : Nat) : String := String.join (List.replicate n s)

/-- Python `str.ljust`. -/
def pyLjust (s : String) (w : Nat) : String := s ++ spaces (w - s.length)

/-- Python `str.rjust`. -/
def pyRjust (s : String) (w : Nat) : String := spaces (w - s.length) ++ s

/-- Python `str.center`, including CPython's parity rule for the extra pad
character (`left = marg / 2 + (marg AND width AND 1)`). -/
def pyCenter (s : String) (w : Nat) : String :=
  if w ≤ s.length then s
  else
    let marg := w - s.length
    let left := marg / 2 + Nat.land (Nat.land marg w) 1
    spaces left ++ s ++ spaces (marg - left)

/-- Python `s[:i]` (take-slice, negative stop counts from the end). -/
def pySliceTo (s : String) (i : Int) : String :=
  if i < 0 then s.take ((s.length : Int) + i).toNat else s.take i.toNat

/-- Python `str.split(sep)` over character lists, for a non-empty `sep`:
greedy left-to-right scan, empty chunks preserved.  Structural recursion
on a fuel argument (`fuel ≥ length` always holds at every call, so the
`fuel = 0` fallback is unreachable). -/
def splitChF (sep : List Char) : Nat → List Char → List (List Char)
  | _, [] => [[]]
  | 0, l => [l]
  | fuel + 1, c :: rest =>
    if sep ≠ [] ∧ sep.isPrefixOf (c :: rest) then
      [] :: splitChF sep fuel ((c :: rest).drop sep.length)
    else
      match splitChF sep fuel rest with
      | [] => [[c]]
      | g :: gs => (c :: g) :: gs

/-- Python `str.split(sep)` over character lists. -/
def splitCh (sep l : List Char) : List (List Char) :=
  splitChF sep l.length l

/-- Python `s.split(sep)` (total version; caller guards `sep ≠ ""`). -/
def pySplit (s sep : String) : List String :=
  (splitCh sep.data s.data).map String.mk

/-- Python `s.split(sep)`: raises `ValueError` on an empty separator. -/
def pySplitE (s sep : String) : Except PyErr (List String) :=
  if sep = "" then .error (.valueError "empty separator") else .ok (pySplit s sep)

/-- Python `fs.format(v)`, modelled for format templates that are literal
text with positional placeholders: every placeholder is replaced by the
value.  The library only ever uses such templates (default `"\x7b\x7d"`). -/
def formatApply (fs v : String) : String :=
  String.intercalate v (pySplit fs "\x7b\x7d")

/-- Python `max(list-of-ints)`: `ValueError` on an empty sequence. -/
def pyMax : List Nat → Except PyErr Nat
  | [] => .error (.valueError "max() arg is an empty sequence")
  | x :: xs => .ok (xs.foldl max x)

/-- Total maximum of a list of naturals (agrees with `pyMax` on non-empty
lists since every element is `≥ 0`). -/
def listMax (l : List Nat) : Nat := l.foldl max 0

/-- Python `dict[key]` on the key→position maps: `KeyError` when absent. -/
def dictGet (m : List (String × Nat)) (s : String) : Except PyErr Nat :=
  match m.lookup s with
  | some v => .ok v
  | none => .error (.keyError s)

/-! ## Data model (`Align`, `Border`, `HeadAttr`, `TableAttr`) -/

/-- `Align` of `text.py`: NONE sentinel plus 9 concrete variants. -/
inductive Align
  | NONE | TL | TC | TR | CL | CC | CR | BL | BC | BR
deriving DecidableEq, Repr

/-- `Border` of `text.py`: four edge flags, default all `true`. -/
structure Border where
  top : Bool := true
  bottom : Bool := true
  left : Bool := true
  right : Bool := true
deriving DecidableEq, Repr

/-- A Python value used as a hash key: in this library keys are either
strings or `None` (the only non-string key the code ever stores). -/
inductive KeyV
  | kstr (s : String)
  | knone
deriving DecidableEq, Repr

/-- `HeadAttr` of `text.py` (per-column / per-row descriptor). -/
structure HeadAttr where
  key : KeyV
  title : String
  width : Nat := 0
  align : Align := .TL
  is_sep : Bool := true
  border : Border := {}
  lofs : Nat := 1
  rofs : Nat := 1
deriving DecidableEq, Repr

/-- `TableAttr` of `text.py` (per-cell attribute).  The `border` field is
an `Option` because `add_col` stores the raw `None` default unchanged. -/
structure TableAttr where
  align : Align := .TL
  is_sep : Bool := false
  fs : String := "\x7b\x7d"
  border : Option Border := some {}
deriving DecidableEq, Repr

/-- An integer-or-string address (`loc`, `index` arguments). -/
inductive Loc
  | pos (n : Int)
  | key (s : String)
deriving DecidableEq, Repr

/-! ## `SimpleTable` state -/

/-- The mutable state of a `SimpleTable` object, together with its style
configuration.  `rdiv` models `_rdiv_cnt`: the source stores `math.inf`
when the constructor/setter argument is `0`, modelled here as `none`.
Cell values are modelled as strings (the renderer only ever consumes
`fs.format(value)`). -/
structure STable where
  sep : String := "."
  rdiv : Option Nat := none
  is_partp : Bool := true
  border : Border := {}
  lsh : Nat := 0
  hpat : String := "-"
  hcpat : String := "+"
  vpat : String := "-"
  vcpat : String := "+"
  spat : String := "|"
  cpat_alon : Bool := false
  max_row : Nat := 0
  index_head : HeadAttr := { key := .knone, title := "" }
  index : List HeadAttr := []
  header : List HeadAttr := []
  table : List (List String) := []
  attr : List (List TableAttr) := []
deriving DecidableEq, Repr

/-- `SimpleTable.__init__`: header descriptors from `(key, title)` pairs;
`rdiv_cnt = 0` becomes "infinite" (`none`). -/
def STable.init (heads : List (String × String)) (sep : String := ".")
    (rdiv_cnt : Nat := 0) : STable :=
  { sep := sep
    rdiv := if rdiv_cnt = 0 then none else some rdiv_cnt
    header := heads.map fun kt => { key := .kstr kt.1, title := kt.2 } }

/-- `max_col` property: `len(self._header)`. -/
def STable.max_col (st : STable) : Nat := st.header.length

/-! ## Address resolution (`_get_id` / `_get_index`)

`SimpleTable._get_id`, `_IndexLocation.id` and `_AttrLocation._get_id`
are three copies of the same eager key→position map construction; they
are embedded once as `getId`. -/

/-- The loop body of `_get_id`: walk the descriptor sequence building the
key→position dict, raising `KeyError` at the first non-string key or at
the first repeated key. -/
def getIdAux (vdict : List (String × Nat)) (i : Nat) :
    List HeadAttr → Except PyErr (List (String × Nat))
  | [] => .ok vdict
  | cell :: rest =>
    match cell.key with
    | .kstr s =>
      if (vdict.lookup s).isSome then
        .error (.keyError "Hash key repeat.")
      else
        getIdAux (vdict ++ [(s, i)]) (i + 1) rest
    | .knone => .error (.keyError "Hash key must be the string type.")

/-- `_get_id(idata)`: eager key→position map over the whole sequence. -/
def getId (idata : List HeadAttr) : Except PyErr (List (String × Nat)) :=
  getIdAux [] 0 idata

/-- `_get_index(idata, index, itype=1)`: a single int-or-key address.
Integers pass through unresolved; a key goes through the full map. -/
def getIndexOne (idata : List HeadAttr) : Loc → Except PyErr Int
  | .pos n => .ok n
  | .key s => do
    let m ← getId idata
    let i ← dictGet m s
    pure (i : Int)

/-- One bound of a slice address: omitted, literal integer, or key. -/
inductive SBound
  | omitted
  | ipos (n : Int)
  | skey (s : String)
deriving DecidableEq, Repr

/-- `_get_index(idata, index, itype=2)`: resolve a slice's bounds.
An omitted start is `0`, an omitted stop is `len(idata)`; integer bounds
pass through; a key start resolves to its position and a key stop to the
position plus one. -/
def getIndexRange (idata : List HeadAttr) (start stop : SBound) :
    Except PyErr (Int × Int) := do
  let st ←
    match start with
    | .omitted => pure (0 : Int)
    | .ipos n => pure n
    | .skey s => do
      let m ← getId idata
      let i ← dictGet m s
      pure (i : Int)
  let ed ←
    match stop with
    | .omitted => pure (idata.length : Int)
    | .ipos n => pure n
    | .skey s => do
      let m ← getId idata
      let i ← dictGet m s
      pure ((i : Int) + 1)
  pure (st, ed)

/-! ## Attribute-wrapper setters (`Index._set_attr`, `AttrArray._set_attr`) -/

/-- `Index._set_attr`: on a length mismatch the source builds the message
`f"Shapes difference. (self:\x7bax1\x7d, vlist:\x7bax2\x7d)"` — but `ax1`
and `ax2` are never assigned in this method, so evaluating the f-string
raises `NameError` before the intended `ValueError` can be raised.
On matching lengths every descriptor is updated via `upd`. -/
def indexSetAttr {V : Type} (arr : List HeadAttr) (upd : HeadAttr → V → HeadAttr)
    (vlist : List V) : Except PyErr (List HeadAttr) :=
  if arr.length ≠ vlist.length then
    .error (.nameError "name 'ax1' is not defined")
  else
    .ok (List.zipWith upd arr vlist)

/-- A 1-D or 2-D attribute array (`AttrArray._array` with `_ndim`). -/
inductive AArr
  | one (l : List TableAttr)
  | two (l : List (List TableAttr))
deriving DecidableEq, Repr

/-- A plain Python list supplied as the value of an attribute setter. -/
inductive VL (V : Type)
  | vone (l : List V)
  | vtwo (l : List (List V))
deriving DecidableEq, Repr

/-- `AttrArray._shape` for the stored array: `(ax1, len(array[0]))` when
the first element is a list, `(ax1,)` otherwise (so also for `[]`). -/
def aShape : AArr → List Nat
  | .one l => [l.length]
  | .two [] => [0]
  | .two (r :: rs) => [(r :: rs).length, r.length]

/-- `AttrArray._shape` applied to the supplied value list. -/
def vShape {V : Type} : VL V → List Nat
  | .vone l => [l.length]
  | .vtwo [] => [0]
  | .vtwo (r :: rs) => [(r :: rs).length, r.length]

/-- `AttrArray._set_attr`: shape check first (a genuine `ValueError` this
time, `ax1`/`ax2` are walrus-bound), then elementwise update.  The mixed
branches are only reachable when both shapes are `[0]`, where the Python
loop body runs zero times. -/
def attrArraySetAttr {V : Type} (self : AArr) (upd : TableAttr → V → TableAttr)
    (vlist : VL V) : Except PyErr AArr :=
  if aShape self ≠ vShape vlist then
    .error (.valueError "Shapes difference.")
  else
    match self, vlist with
    | .one l, .vone v => .ok (.one (List.zipWith upd l v))
    | .two l, .vtwo v => .ok (.two (List.zipWith (List.zipWith upd) l v))
    | .one l, .vtwo _ => .ok (.one l)
    | .two l, .vone _ => .ok (.two l)

/-! ## Structural mutation (`add_row`, `add_col`, `swap_*`, `del_*`) -/

/-- Resolve an int-or-key location against a descriptor sequence, as every
mutator does (`self.index.id[loc] if type(loc) is str else loc`). -/
def resolveLoc (idata : List HeadAttr) : Loc → Except PyErr Int
  | .pos n => pure n
  | .key s => do
    let m ← getId idata
    let i ← dictGet m s
    pure (i : Int)

/-- `self._attr[rid-1][i].<field>`: the read used by `add_row` to inherit
an unspecified attribute from the row above the insertion point. -/
def readPrev {α : Type} (attrCur : List (List TableAttr)) (rid : Int) (i : Nat)
    (f : TableAttr → α) : Except PyErr α := do
  let prow ← pyGet attrCur (rid - 1)
  let pc ← pyGet prow (i : Int)
  pure (f pc)

/-- `v if v is not None else <read>`, with the fixed default used when
this is the very first row (`first`, i.e. `self.max_row == 1`). -/
def optPick {α : Type} (first : Bool) (dflt : α) (given : Option α)
    (read : Except PyErr α) : Except PyErr α :=
  if first then pure (given.getD dflt)
  else
    match given with
    | some v => pure v
    | none => read

/-- `align if align != Align.NONE else <read>`, with `Align.TL` as the
first-row fallback. -/
def alignPick (first : Bool) (given : Align) (read : Except PyErr Align) :
    Except PyErr Align :=
  if first then pure (if given ≠ Align.NONE then given else Align.TL)
  else if given ≠ Align.NONE then pure given else read

/-- `border if border is not None else copy(<read>)`, with a fresh
all-edges `Border()` as the first-row fallback.  The read value is itself
optional because a stored border may be `None` (see `add_col`). -/
def borderPick (first : Bool) (given : Option Border)
    (read : Except PyErr (Option Border)) : Except PyErr (Option Border) :=
  if first then pure (some (given.getD {}))
  else
    match given with
    | some b => pure (some b)
    | none => read

/-- The `for i in range(self.max_col)` loop of `add_row`, building the new
value row and attribute row.  `attrCur` reconstructs `self._attr` as it
stands mid-loop: the partially built attribute row sits at the insertion
position `posA`, so `self._attr[rid-1]` is read against that list —
faithfully reproducing Python's negative-index wraparound and its access
to the partial row when `rid` exceeds the old length by one. -/
def addRowLoop (attrOld : List (List TableAttr)) (data : List String)
    (init : String) (rid : Int) (posA : Nat) (max_row2 : Nat) (align : Align)
    (is_sep : Option Bool) (fs : Option String) (border : Option Border) :
    List Nat → List String × List TableAttr →
    Except PyErr (List String × List TableAttr)
  | [], acc => .ok acc
  | i :: rest, (row, arow) => do
    let attrCur := attrOld.take posA ++ arow :: attrOld.drop posA
    let align2 ← alignPick (max_row2 == 1) align
        (readPrev attrCur rid i TableAttr.align)
    let is_sep2 ← optPick (max_row2 == 1) false is_sep
        (readPrev attrCur rid i TableAttr.is_sep)
    let fs2 ← optPick (max_row2 == 1) "\x7b\x7d" fs
        (readPrev attrCur rid i TableAttr.fs)
    let border2 ← borderPick (max_row2 == 1) border
        (readPrev attrCur rid i TableAttr.border)
    addRowLoop attrOld data init rid posA max_row2 align is_sep fs border rest
      (row ++ [data.getD i init],
       arow ++ [{ align := align2, is_sep := is_sep2, fs := fs2, border := border2 }])

/-- `SimpleTable.add_row`. -/
def STable.add_row (st : STable) (key : KeyV) (title : String)
    (data : List String) (init : String := "") (loc : Option Loc := none)
    (align : Align := .NONE) (is_sep : Option Bool := none)
    (fs : Option String := none) (border : Option Border := none) :
    Except PyErr STable := do
  let rid : Int ←
    match loc with
    | none => pure (st.max_row : Int)
    | some l => resolveLoc st.index l
  let index2 := pyInsert st.index rid { key := key, title := title }
  let posT := pyInsertPos st.table.length rid
  let posA := pyInsertPos st.attr.length rid
  let max_row2 := st.max_row + 1
  let (row, arow) ← addRowLoop st.attr data init rid posA max_row2 align is_sep
      fs border (List.range st.header.length) ([], [])
  pure { st with index := index2,
                 table := st.table.take posT ++ row :: st.table.drop posT,
                 attr := st.attr.take posA ++ arow :: st.attr.drop posA,
                 max_row := max_row2 }

/-- The `add_row` per-column loop with Python's mutation order made
explicit: the attribute reads of an iteration run before that iteration's
appends, so on an exception the cells appended by earlier iterations are
kept (the `row`/`attr` lists were inserted into the grid before the loop
started) and the error is reported alongside the partial lists. -/
def addRowLoopP (attrOld : List (List TableAttr)) (data : List String)
    (init : String) (rid : Int) (posA : Nat) (max_row2 : Nat) (align : Align)
    (is_sep : Option Bool) (fs : Option String) (border : Option Border) :
    List Nat → List String × List TableAttr →
    (List String × List TableAttr) × Option PyErr
  | [], acc => (acc, none)
  | i :: rest, (row, arow) =>
    let attrCur := attrOld.take posA ++ arow :: attrOld.drop posA
    match alignPick (max_row2 == 1) align
        (readPrev attrCur rid i TableAttr.align) with
    | .error e => ((row, arow), some e)
    | .ok align2 =>
      match optPick (max_row2 == 1) false is_sep
          (readPrev attrCur rid i TableAttr.is_sep) with
      | .error e => ((row, arow), some e)
      | .ok is_sep2 =>
        match optPick (max_row2 == 1) "\x7b\x7d" fs
            (readPrev attrCur rid i TableAttr.fs) with
        | .error e => ((row, arow), some e)
        | .ok fs2 =>
          match borderPick (max_row2 == 1) border
              (readPrev attrCur rid i TableAttr.border) with
          | .error e => ((row, arow), some e)
          | .ok border2 =>
            addRowLoopP attrOld data init rid posA max_row2 align is_sep fs
              border rest
              (row ++ [data.getD i init],
               arow ++ [{ align := align2, is_sep := is_sep2, fs := fs2,
                          border := border2 }])

/-- `SimpleTable.add_row` with Python's mutation order preserved: the
descriptor and the initially empty row/attribute lists are inserted and
`_max_row` bumped before the per-column loop runs, so an exception raised
by an inheritance read leaves the table mutated, with the inserted row
holding only the cells appended so far. -/
def STable.add_row_state (st : STable) (key : KeyV) (title : String)
    (data : List String) (init : String := "") (loc : Option Loc := none)
    (align : Align := .NONE) (is_sep : Option Bool := none)
    (fs : Option String := none) (border : Option Border := none) :
    STable × Option PyErr :=
  match (match loc with
         | none => (pure (st.max_row : Int) : Except PyErr Int)
         | some l => resolveLoc st.index l) with
  | .error e => (st, some e)
  | .ok rid =>
    let index2 := pyInsert st.index rid { key := key, title := title }
    let posT := pyInsertPos st.table.length rid
    let posA := pyInsertPos st.attr.length rid
    let max_row2 := st.max_row + 1
    match addRowLoopP st.attr data init rid posA max_row2 align is_sep fs
        border (List.range st.header.length) ([], []) with
    | ((row, arow), err) =>
      ({ st with index := index2,
                 table := st.table.take posT ++ row :: st.table.drop posT,
                 attr := st.attr.take posA ++ arow :: st.attr.drop posA,
                 max_row := max_row2 }, err)

/-- The `for i in range(self.max_row)` loop of `add_col`: insert the value
and a fresh `TableAttr(align, is_sep, fs, border)` into every grid row. -/
def addColLoop (cid : Int) (data : List String) (init : String)
    (attrNew : TableAttr) :
    List Nat → List (List String) × List (List TableAttr) →
    Except PyErr (List (List String) × List (List TableAttr))
  | [], acc => .ok acc
  | i :: rest, (tbl, att) => do
    let trow ← pyGet tbl (i : Int)
    let arow ← pyGet att (i : Int)
    addColLoop cid data init attrNew rest
      (tbl.set i (pyInsert trow cid (data.getD i init)),
       att.set i (pyInsert arow cid attrNew))

/-- `SimpleTable.add_col`.  Note: unlike `add_row` there is no inheritance
from a neighbouring column — the defaulted attribute values are stored
directly, and an unspecified `border` is stored as `None`. -/
def STable.add_col (st : STable) (key : KeyV) (title : String)
    (data : List String) (init : String := "") (loc : Option Loc := none)
    (align : Align := .TL) (is_sep : Bool := false)
    (fs : String := "\x7b\x7d") (border : Option Border := none) :
    Except PyErr STable := do
  let cid : Int ←
    match loc with
    | none => pure (st.max_col : Int)
    | some l => resolveLoc st.header l
  let header2 := pyInsert st.header cid { key := key, title := title }
  let (tbl, att) ← addColLoop cid data init
      { align := align, is_sep := is_sep, fs := fs, border := border }
      (List.range st.max_row) (st.table, st.attr)
  pure { st with header := header2, table := tbl, attr := att }

/-- `SimpleTable.swap_row`: tuple-swap on `_index`, `_table`, `_attr`. -/
def STable.swap_row (st : STable) (i1 i2 : Loc) : Except PyErr STable := do
  let rid1 ← resolveLoc st.index i1
  let rid2 ← resolveLoc st.index i2
  let a1 ← pyGet st.index rid2
  let b1 ← pyGet st.index rid1
  let idxA ← pySet st.index rid1 a1
  let idxB ← pySet idxA rid2 b1
  let a2 ← pyGet st.table rid2
  let b2 ← pyGet st.table rid1
  let tblA ← pySet st.table rid1 a2
  let tblB ← pySet tblA rid2 b2
  let a3 ← pyGet st.attr rid2
  let b3 ← pyGet st.attr rid1
  let attA ← pySet st.attr rid1 a3
  let attB ← pySet attA rid2 b3
  pure { st with index := idxB, table := tblB, attr := attB }

/-- The per-row loop of `swap_col`. -/
def swapColLoop (cid1 cid2 : Int) :
    List Nat → List (List String) × List (List TableAttr) →
    Except PyErr (List (List String) × List (List TableAttr))
  | [], acc => .ok acc
  | i :: rest, (tbl, att) => do
    let trow ← pyGet tbl (i : Int)
    let ta ← pyGet trow cid2
    let tb ← pyGet trow cid1
    let t1 ← pySet trow cid1 ta
    let t2 ← pySet t1 cid2 tb
    let arow ← pyGet att (i : Int)
    let aa ← pyGet arow cid2
    let ab ← pyGet arow cid1
    let a1 ← pySet arow cid1 aa
    let a2 ← pySet a1 cid2 ab
    swapColLoop cid1 cid2 rest (tbl.set i t2, att.set i a2)

/-- `SimpleTable.swap_col`. -/
def STable.swap_col (st : STable) (i1 i2 : Loc) : Except PyErr STable := do
  let cid1 ← resolveLoc st.header i1
  let cid2 ← resolveLoc st.header i2
  let h1 ← pyGet st.header cid2
  let h2 ← pyGet st.header cid1
  let hdA ← pySet st.header cid1 h1
  let hdB ← pySet hdA cid2 h2
  let (tbl, att) ← swapColLoop cid1 cid2 (List.range st.max_row)
      (st.table, st.attr)
  pure { st with header := hdB, table := tbl, attr := att }

/-- `SimpleTable.del_row`: a no-op when `max_row == 0`. -/
def STable.del_row (st : STable) (index : Loc) : Except PyErr STable := do
  if st.max_row > 0 then
    let rid ← resolveLoc st.index index
    let idx ← pyDel st.index rid
    let tbl ← pyDel st.table rid
    let att ← pyDel st.attr rid
    pure { st with index := idx, table := tbl, attr := att,
                   max_row := st.max_row - 1 }
  else
    pure st

/-- The per-row deletion loop of `del_col`. -/
def delColLoop (cid : Int) :
    List Nat → List (List String) × List (List TableAttr) →
    Except PyErr (List (List String) × List (List TableAttr))
  | [], acc => .ok acc
  | i :: rest, (tbl, att) => do
    let trow ← pyGet tbl (i : Int)
    let arow ← pyGet att (i : Int)
    let t ← pyDel trow cid
    let a ← pyDel arow cid
    delColLoop cid rest (tbl.set i t, att.set i a)

/-- `SimpleTable.del_col`: deletes the descriptor and one cell per grid
row; when the header becomes empty a synthetic fallback column descriptor
is appended — to the header only, not to the grid rows. -/
def STable.del_col (st : STable) (index : Loc) : Except PyErr STable := do
  let cid ← resolveLoc st.header index
  let hd ← pyDel st.header cid
  let (tbl, att) ← delColLoop cid (List.range st.max_row) (st.table, st.attr)
  let hd2 := if hd.length = 0 then hd ++ [{ key := .kstr "title1", title := "Title1" }]
             else hd
  pure { st with header := hd2, table := tbl, attr := att }

/-! ## Width inference -/

/-- The per-row growth loop of `get_col_width` (runs only for width-0
columns): apply the cell's format string, split when `is_sep`, grow the
running size by the longest segment. -/
def colWidthLoop (st : STable) (cid : Int) :
    List Nat → Nat → Except PyErr Nat
  | [], sz => .ok sz
  | r :: rest, sz => do
    let arow ← pyGet st.attr (r : Int)
    let a ← pyGet arow cid
    let trow ← pyGet st.table (r : Int)
    let v ← pyGet trow cid
    let str2 := formatApply a.fs v
    let vlist ← if a.is_sep then pySplitE str2 st.sep else pure [str2]
    let size2 ← pyMax (vlist.map String.length)
    colWidthLoop st cid rest (if size2 > sz then size2 else sz)

/-- `SimpleTable.get_col_width`. -/
def STable.get_col_width (st : STable) (index : Loc) : Except PyErr Nat := do
  let cid ← resolveLoc st.header index
  let h ← pyGet st.header cid
  let tlist ← if h.is_sep then pySplitE h.title st.sep else pure [h.title]
  let size2 ← pyMax (tlist.map String.length)
  let size := if size2 > h.width then size2 else h.width
  if h.width = 0 then
    colWidthLoop st cid (List.range st.max_row) size
  else
    pure size

/-! ## Rendering (`SimpleTable.print`)

The renderer is embedded as a pure function returning the list of emitted
lines, each tagged by the `print(...)` site in the source that emits it
(top border, header line, header divider, interior row divider, row line,
bottom border).  In the empty-table bottom branch the source prints the
same divider string twice: the first print is the header divider, the
second the bottom border. -/

/-- One emitted output line, tagged by its role. -/
inductive Line
  | topBorder (s : String)
  | headerLine (s : String)
  | headerDivider (s : String)
  | rowDivider (s : String)
  | rowLine (s : String)
  | bottomBorder (s : String)
deriving DecidableEq, Repr

/-- The role tag of a line, with the rendered text forgotten. -/
inductive Tag
  | top | header | hdrDiv | rowDiv | row | bottom
deriving DecidableEq, Repr

/-- Project a line to its role tag. -/
def lineTag : Line → Tag
  | .topBorder _ => .top
  | .headerLine _ => .header
  | .headerDivider _ => .hdrDiv
  | .rowDivider _ => .rowDiv
  | .rowLine _ => .row
  | .bottomBorder _ => .bottom

/-- Read `x.border` off a duck-typed divider attribute (a `HeadAttr`'s
border is always present; a `TableAttr` stored by `add_col` may hold
`None`, where Python raises `AttributeError`). -/
def borderOf : Option Border → Except PyErr Border
  | some b => .ok b
  | none => .error .attributeError

/-- The `for i in range(len(wlist))` body plus trailing corner of
`SimpleTable._div_gen`.  `alist`/`palist` carry only the `border` fields
the source reads from the duck-typed attribute lists. -/
def divGen (st : STable) (wlist : List Nat) (alist : List (Option Border))
    (hlist : List HeadAttr) (cpat dpat : String)
    (palist0 : Option (List (Option Border))) (is_bottom : Bool) :
    Except PyErr String := do
  -- Python truthiness: an empty `palist` behaves like `None`.
  let palist := match palist0 with
    | some [] => none
    | x => x
  let body ← wlist.enum.foldlM
    (fun acc (iw : Nat × Nat) => do
      let i := iw.1
      let bi ← borderOf (← pyGet alist (i : Int))
      let cor0 := st.cpat_alon || bi.left
      let cor1 ←
        if i > 0 then do
          let bp ← borderOf (← pyGet alist ((i : Int) - 1))
          pure (cor0 || bp.right)
        else pure cor0
      let (is_cor, is_bor) ←
        if is_bottom then
          pure (cor1, bi.bottom)
        else
          match palist with
          | some pl => do
            let pbi ← borderOf (← pyGet pl (i : Int))
            let cor2 := cor1 || pbi.left
            let cor3 ←
              if i > 0 then do
                let pbp ← borderOf (← pyGet pl ((i : Int) - 1))
                pure (cor2 || pbp.right)
              else pure cor2
            pure (cor3, bi.top || pbi.bottom)
          | none => pure (cor1, bi.top)
      let hi ← pyGet hlist (i : Int)
      let seg1 := if i > 0 || st.border.left then (if is_cor then cpat else " ") else ""
      let seg2 := repeatStr (if is_bor then dpat else " ") (iw.2 + hi.lofs + hi.rofs)
      pure (acc ++ seg1 ++ seg2))
    (spaces st.lsh)
  let bl ← borderOf (← pyGet alist (-1))
  let cor4 := st.cpat_alon || bl.right
  let cor5 ←
    match palist with
    | some pl => do
      let pb ← borderOf (← pyGet pl (-1))
      pure (cor4 || pb.right)
    | none => pure cor4
  pure (if st.border.right then body ++ (if cor5 then cpat else " ") else body)

/-- `s.split(sep) if <is_sep> else [s]`: the segmenting step shared by
the head-data and value-data passes. -/
def splitIf (is_sep : Bool) (s sep : String) : Except PyErr (List String) :=
  if is_sep then pySplitE s sep else pure [s]

/-- The `if head[c].width == 0: ... csize_list[i] = size` growth step of
the value-data pass. -/
def growIf (w : Nat) (segs : List String) (csize : List Nat) (i : Nat) :
    Except PyErr (List Nat) :=
  if w = 0 then do
    let size ← pyMax (segs.map String.length)
    let cur ← pyGet csize (i : Int)
    pure (if size > cur then csize.set i size else csize)
  else pure csize

/-- Head-data pass of `print`: per selected column, the split title
segments, their count, and the initial column size
`max(longest title segment, fixed width)`. -/
def headPhase (st : STable) :
    List Nat → Except PyErr (List (List String) × List Nat × List Nat)
  | [] => .ok ([], [], [])
  | c :: cs => do
    let h ← pyGet st.header (c : Int)
    let segs ← splitIf h.is_sep h.title st.sep
    let size ← pyMax (segs.map String.length)
    let (hd, hc, csz) ← headPhase st cs
    pure (segs :: hd, segs.length :: hc,
          (if size > h.width then size else h.width) :: csz)

/-- One cell of the value-data pass: format, split, record the segment
count, force partial printing when a cell produced several segments, and
grow the column size — only when the column's fixed width is unset. -/
def valueCellStep (st : STable) (r : Nat) (i : Nat) (c : Nat)
    (acc : List (List String) × List Nat × Bool × List Nat) :
    Except PyErr (List (List String) × List Nat × Bool × List Nat) := do
  let (row, rcs, fp, csize) := acc
  let arow ← pyGet st.attr (r : Int)
  let a ← pyGet arow (c : Int)
  let trow ← pyGet st.table (r : Int)
  let v ← pyGet trow (c : Int)
  let str_val := formatApply a.fs v
  let segs ← splitIf a.is_sep str_val st.sep
  let rcnt := segs.length
  let fp2 := fp || decide (1 < rcnt)
  let h ← pyGet st.header (c : Int)
  let csize2 ← growIf h.width segs csize i
  pure (row ++ [segs], rcs ++ [rcnt], fp2, csize2)

/-- The `for i, c in enumerate(col_list)` loop of the value-data pass. -/
def valueRowLoop (st : STable) (r : Nat) :
    Nat → List Nat → List (List String) × List Nat × Bool × List Nat →
    Except PyErr (List (List String) × List Nat × Bool × List Nat)
  | _, [], acc => .ok acc
  | i, c :: cs, acc => do
    let acc2 ← valueCellStep st r i c acc
    valueRowLoop st r (i + 1) cs acc2

/-- Value-data pass of `print` over the selected rows: collects the per
row segment matrices and counts, the forced-partial flag, and the final
column sizes. -/
def valuePhase (st : STable) (cols : List Nat) :
    List Nat →
    List (List (List String)) × List (List Nat) × Bool × List Nat →
    Except PyErr (List (List (List String)) × List (List Nat) × Bool × List Nat)
  | [], acc => .ok acc
  | r :: rs, (vdata, vcnt, fp, csize) => do
    let (row, rcs, fp2, csize2) ← valueRowLoop st r 0 cols ([], [], fp, csize)
    valuePhase st cols rs (vdata ++ [row], vcnt ++ [rcs], fp2, csize2)

/-- The vertical sub-range `[row_st, row_ed)` a cell's segments occupy,
from its alignment's vertical anchor; an unresolved `NONE` alignment is
the fatal `SyntaxError` of the source. -/
def stEdOf (maxr : Nat) (align : Align) (cnt : Nat) : Except PyErr (Nat × Nat) :=
  match align with
  | .TL | .TC | .TR => .ok (0, cnt)
  | .CL | .CC | .CR => .ok ((maxr - cnt) / 2, (maxr - cnt) / 2 + cnt)
  | .BL | .BC | .BR => .ok (maxr - cnt, maxr)
  | .NONE => .error (.syntaxError "The align ID is undefined.")

/-- Horizontal justification dispatch on the alignment's horizontal
anchor (`ljust` / `center` / `rjust`), `SyntaxError` on `NONE`. -/
def pyJust (align : Align) (s : String) (w : Nat) : Except PyErr String :=
  match align with
  | .TL | .CL | .BL => .ok (pyLjust s w)
  | .TC | .CC | .BC => .ok (pyCenter s w)
  | .TR | .CR | .BR => .ok (pyRjust s w)
  | .NONE => .error (.syntaxError "The align ID is undefined.")

/-- `' '*lofs, ' '*rofs` pairs per selected column (`ofs` in `print`). -/
def ofsPhase (st : STable) (cols : List Nat) :
    Except PyErr (List (String × String)) :=
  cols.mapM fun c => do
    let h ← pyGet st.header (c : Int)
    pure (spaces h.lofs, spaces h.rofs)

/-- Build one physical header line (`for r in range(max_row)` body). -/
def headerLineBuild (st : STable) (cols : List Nat) (csize : List Nat)
    (hdata : List (List String)) (stEd : List (Nat × Nat))
    (ofs : List (String × String)) (r : Nat) : Except PyErr String := do
  let line ← cols.enum.foldlM
    (fun acc (ic : Nat × Nat) => do
      let i := ic.1
      let c := ic.2
      let h ← pyGet st.header (c : Int)
      let se ← pyGet stEd (i : Int)
      let w ← pyGet csize (i : Int)
      let str_mdy ←
        if se.1 ≤ r ∧ r < se.2 then do
          let segs ← pyGet hdata (i : Int)
          let sv ← pyGet segs ((r - se.1 : Nat) : Int)
          pyJust h.align sv w
        else
          pure (spaces w)
      let ci ← pyGet cols (i : Int)
      let hci ← pyGet st.header (ci : Int)
      let sepF ←
        if i > 0 then do
          let cj ← pyGet cols ((i : Int) - 1)
          let hcj ← pyGet st.header (cj : Int)
          pure (hci.border.left || hcj.border.right)
        else pure hci.border.left
      let o ← pyGet ofs (i : Int)
      let g := if i > 0 || st.border.left then (if sepF then st.spat else " ") else ""
      pure (acc ++ g ++ o.1 ++ str_mdy ++ o.2))
    (spaces st.lsh)
  let cl ← pyGet cols (-1)
  let hcl ← pyGet st.header (cl : Int)
  pure (if st.border.right then line ++ (if hcl.border.right then st.spat else " ")
        else line)

/-- Header block of `print`: vertical sub-ranges per column, then one
physical line per `range(max(hrow_cnt))`. -/
def headerBlock (st : STable) (cols : List Nat) (csize : List Nat)
    (hdata : List (List String)) (hrow : List Nat)
    (ofs : List (String × String)) : Except PyErr (List String) := do
  let maxr ← pyMax hrow
  let stEd ← (cols.zip hrow).mapM fun cc => do
    let h ← pyGet st.header (cc.1 : Int)
    stEdOf maxr h.align cc.2
  (List.range maxr).mapM (headerLineBuild st cols csize hdata stEd ofs)

/-- Render one in-range data-cell segment: horizontal justification, then
the overflow branch taken exactly when the segment is strictly longer
than the column width — truncate to `width-1` plus a `>` marker when
partial printing is on, otherwise a soft wrap (`\n` plus re-alignment
spaces, with no trailing right padding). -/
def renderCell (partp : Bool) (o1 o2 : String) (align : Align) (w : Nat)
    (str_val : String) (acc_col_sz : Nat) : Except PyErr String := do
  let str_mdy ← pyJust align str_val w
  if str_val.length > w then
    if partp then
      pure (o1 ++ pySliceTo str_mdy ((w : Int) - 1) ++ ">" ++ o2)
    else
      pure (o1 ++ str_mdy ++ "\n" ++ spaces acc_col_sz)
  else
    pure (o1 ++ str_mdy ++ o2)

/-- Build one physical line of a data-row block (the `for r2 in
range(max_row)` body), threading `acc_col_sz` through the columns. -/
def rowLineBuild (st : STable) (cols : List Nat) (csize : List Nat)
    (ofs : List (String × String)) (stEd : List (Nat × Nat)) (isfp : Bool)
    (r : Nat) (segsRow : List (List String)) (r2 : Nat) :
    Except PyErr String := do
  let res ← cols.enum.foldlM
    (fun (acc : String × Nat) (ic : Nat × Nat) => do
      let i := ic.1
      let c := ic.2
      let se ← pyGet stEd (i : Int)
      let arow ← pyGet st.attr (r : Int)
      let a ← pyGet arow (c : Int)
      let h ← pyGet st.header (c : Int)
      let w ← pyGet csize (i : Int)
      let o ← pyGet ofs (i : Int)
      let (str_mdy, accsz2) ←
        if se.1 ≤ r2 ∧ r2 < se.2 then do
          let segs ← pyGet segsRow (i : Int)
          let sv ← pyGet segs ((r2 - se.1 : Nat) : Int)
          let acc2 := acc.2 + w + h.lofs + h.rofs + (if st.border.left then 1 else 0)
          let out ← renderCell (st.is_partp || isfp) o.1 o.2 a.align w sv acc2
          pure (out, acc2)
        else
          pure (o.1 ++ spaces w ++ o.2, acc.2)
      let ci ← pyGet cols (i : Int)
      let aci ← pyGet arow (ci : Int)
      let bci ← borderOf aci.border
      let sepF ←
        if i > 0 then do
          let cj ← pyGet cols ((i : Int) - 1)
          let acj ← pyGet arow (cj : Int)
          let bcj ← borderOf acj.border
          pure bcj.right
        else pure bci.left
      let g := if i > 0 || st.border.left then (if sepF then st.spat else " ") else ""
      pure (acc.1 ++ g ++ str_mdy, accsz2))
    (spaces st.lsh, 0)
  let cl ← pyGet cols (-1)
  let arow ← pyGet st.attr (r : Int)
  let acl ← pyGet arow (cl : Int)
  let bcl ← borderOf acl.border
  pure (if st.border.right then res.1 ++ (if bcl.right then st.spat else " ")
        else res.1)

/-- One data-row block: vertical sub-ranges from the cells' alignments,
then one physical line per `range(max(vrow_cnt[j]))`. -/
def rowBlock (st : STable) (cols : List Nat) (csize : List Nat)
    (ofs : List (String × String)) (isfp : Bool) (r : Nat)
    (segsRow : List (List String)) (cntRow : List Nat) :
    Except PyErr (List String) := do
  let maxr ← pyMax cntRow
  let stEd ← (cols.zip cntRow).mapM fun cc => do
    let arow ← pyGet st.attr (r : Int)
    let a ← pyGet arow (cc.1 : Int)
    stEdOf maxr a.align cc.2
  (List.range maxr).mapM (rowLineBuild st cols csize ofs stEd isfp r segsRow)

/-- `[attr[r][c] for c in col_list]`, reduced to the `border` fields the
divider generator reads. -/
def selBorders (st : STable) (r : Nat) (cols : List Nat) :
    Except PyErr (List (Option Border)) := do
  let arow ← pyGet st.attr (r : Int)
  cols.mapM fun c => do
    let a ← pyGet arow (c : Int)
    pure a.border

/-- `row_cnt == self._rdiv_cnt`: always false against the stored
`math.inf` (`none`). -/
def rdivEq (rdiv : Option Nat) (cnt : Nat) : Bool :=
  match rdiv with
  | some k => cnt == k
  | none => false

/-- The `for j, r in enumerate(row_list)` loop of `print`: the header
divider on the first iteration, an interior divider whenever the running
row count reaches `_rdiv_cnt` (resetting the count to 1), then the row's
block of physical lines. -/
def rowsLoop (st : STable) (cols csize : List Nat)
    (ofs : List (String × String)) (headSel : List HeadAttr) (isfp : Bool)
    (row_list : List Nat) :
    List (Nat × List (List String) × List Nat) → Nat → Nat →
    Except PyErr (List Line)
  | [], _, _ => .ok []
  | (r, segsRow, cntRow) :: rest, j, cnt => do
    let hdr ←
      if j = 0 then do
        let al ← selBorders st r cols
        let s ← divGen st csize al headSel st.hcpat st.hpat
            (some (headSel.map fun h => some h.border)) false
        pure [Line.headerDivider s]
      else pure ([] : List Line)
    let dv ←
      if rdivEq st.rdiv cnt then do
        let al ← selBorders st r cols
        let pr ← pyGet row_list ((j : Int) - 1)
        let pal ← selBorders st pr cols
        let s ← divGen st csize al headSel st.vcpat st.vpat (some pal) false
        pure ([Line.rowDivider s], 1)
      else pure (([] : List Line), cnt + 1)
    let bl ← rowBlock st cols csize ofs isfp r segsRow cntRow
    let tl ← rowsLoop st cols csize ofs headSel isfp row_list rest (j + 1) dv.2
    pure (hdr ++ dv.1 ++ bl.map Line.rowLine ++ tl)

/-- Bottom section of `print`: nothing without a bottom border; for an
empty row selection the same header-style divider string is printed twice
(header divider, then bottom border); otherwise one bottom divider built
against the last printed row's attributes. -/
def bottomPhase (st : STable) (cols csize : List Nat)
    (headSel : List HeadAttr) (row_list : List Nat) :
    Except PyErr (List Line) := do
  if ¬ st.border.bottom then pure []
  else if row_list = ([] : List Nat) then do
    let s ← divGen st csize (headSel.map fun h => some h.border) headSel
        st.hcpat st.hpat none false
    pure [Line.headerDivider s, Line.bottomBorder s]
  else do
    let rl ← pyGet row_list (-1)
    let al ← selBorders st rl cols
    let s ← divGen st csize al headSel st.hcpat st.hpat none true
    pure [Line.bottomBorder s]

/-- `SimpleTable.print` after selection resolution: `cols` and `row_list`
are the selected column/row positions (`range` of the full dimensions for
the default `None` arguments). -/
def STable.printTable (st : STable) (cols row_list : List Nat) :
    Except PyErr (List Line) := do
  let (hdata, hrow, csize0) ← headPhase st cols
  let (vdata, vcnt, isfp, csize) ← valuePhase st cols row_list
      ([], [], false, csize0)
  let headSel ← cols.mapM fun c => pyGet st.header (c : Int)
  let top ←
    if st.border.top then do
      let s ← divGen st csize (headSel.map fun h => some h.border) headSel
          st.hcpat st.hpat none false
      pure [Line.topBorder s]
    else pure ([] : List Line)
  let ofs ← ofsPhase st cols
  let hlines ← headerBlock st cols csize hdata hrow ofs
  let entries := (row_list.zip (vdata.zip vcnt)).map fun e => (e.1, e.2.1, e.2.2)
  let rlines ← rowsLoop st cols csize ofs headSel isfp row_list entries 0 0
  let blines ← bottomPhase st cols csize headSel row_list
  pure (top ++ hlines.map Line.headerLine ++ rlines ++ blines)

/-- `SimpleTable.print()` with the default `column=None, row=None`
selection: all columns and all rows. -/
def STable.printAll (st : STable) : Except PyErr (List Line) :=
  st.printTable (List.range st.max_col) (List.range st.max_row)

/-! ## Specification-level helpers used in theorem statements -/

/-- The header title's segments as the width inferencer sees them:
split on the table separator when the header's `is_sep` is set. -/
def headSegsOf (st : STable) (h : HeadAttr) : List String :=
  if h.is_sep then pySplit h.title st.sep else [h.title]

/-- The formatted, possibly split, segments of data cell `(r, c)`
(total: out-of-range reads default; used only where the renderer's own
reads are valid). -/
def cellSegsD (st : STable) (r c : Nat) : List String :=
  let a := (st.attr.getD r []).getD c {}
  let v := (st.table.getD r []).getD c ""
  let s := formatApply a.fs v
  if a.is_sep then pySplit s st.sep else [s]

/-- Longest segment length of data cell `(r, c)`. -/
def cellMaxD (st : STable) (r c : Nat) : Nat :=
  listMax ((cellSegsD st r c).map String.length)

/-- Tag-level transcript of the row-emission loop: given the starting
iteration index and running row count, the roles of the lines emitted for
blocks of the given heights. -/
def tagSpec (rdiv : Option Nat) : Nat → Nat → List Nat → List Tag
  | _, _, [] => []
  | j, cnt, b :: bs =>
    (if j = 0 then [Tag.hdrDiv] else []) ++
    (if rdivEq rdiv cnt then [Tag.rowDiv] else []) ++
    List.replicate b Tag.row ++
    tagSpec rdiv (j + 1) (if rdivEq rdiv cnt then 1 else cnt + 1) bs

/-- Closed-form divider cadence: an interior divider precedes the data
row at (0-based) position `p` exactly when `p` is a non-zero multiple of
the configured interval. -/
def rowDivAt (rdiv : Option Nat) (p : Nat) : Bool :=
  match rdiv with
  | some k => p ≠ 0 && p % k == 0
  | none => false

/-- The divider cadence in closed form, per entry: starting at loop
position `j`, a header divider at position 0, an interior divider exactly
at the positions `rowDivAt` selects, and one `row` tag per physical line
of the entry's block. -/
def tagSpecFrom (rdiv : Option Nat) (j : Nat) (bls : List Nat) : List Tag :=
  ((List.enumFrom j bls).map fun pb =>
    (if pb.1 = 0 then [Tag.hdrDiv] else []) ++
    (if rowDivAt rdiv pb.1 then [Tag.rowDiv] else []) ++
    List.replicate pb.2 Tag.row).join

/-- The closed-form divider cadence for a whole rendering (loop starts
at position 0). -/
def tagSpecClosed (rdiv : Option Nat) (bls : List Nat) : List Tag :=
  tagSpecFrom rdiv 0 bls

/-! ## Concrete fixtures for witnesses and counterexamples -/

/-- A well-keyed two-descriptor sequence. -/
def wtIdata : List HeadAttr :=
  [{ key := .kstr "a", title := "A" }, { key := .kstr "b", title := "B" }]

/-- A sequence with a duplicated key `"a"` (and a well-formed `"b"`). -/
def wtDup : List HeadAttr :=
  [{ key := .kstr "a", title := "A" }, { key := .kstr "a", title := "A2" },
   { key := .kstr "b", title := "B" }]

/-- A sequence containing a non-string (`None`) key. -/
def wtNonStr : List HeadAttr :=
  [{ key := .knone, title := "A" }, { key := .kstr "b", title := "B" }]

/-- One column, one row; the single cell's attribute is bottom-right
aligned, so that attribute inheritance is observable. -/
def wtTab1 : STable :=
  { header := [{ key := .kstr "a", title := "A" }],
    index := [{ key := .kstr "r0", title := "" }],
    table := [["x"]],
    attr := [[{ align := .BR }]],
    max_row := 1 }

/-- One column, three rows, `row_divider_interval = 1`. -/
def wtTab3 : STable :=
  { rdiv := some 1,
    header := [{ key := .kstr "a", title := "A" }],
    index := [{ key := .kstr "r0", title := "" }, { key := .kstr "r1", title := "" },
              { key := .kstr "r2", title := "" }],
    table := [["x"], ["y"], ["z"]],
    attr := [[{}], [{}], [{}]],
    max_row := 3 }

/-- Like `wtTab3` but with `row_divider_interval = 2`. -/
def wtTab3b : STable := { wtTab3 with rdiv := some 2 }

/-- A column with fixed width 2 but header title `"abc"` of length 3. -/
def wtFix : STable :=
  { header := [{ key := .kstr "a", title := "abc", width := 2 }] }

/-- A zero-row, two-column table. -/
def wtTab4 : STable := STable.init [("id", "ID"), ("name", "Name")]

/-! ## Helper lemmas -/

theorem except_bind_ok {ε α β : Type} (a : α) (f : α → Except ε β) :
    ((Except.ok a : Except ε α) >>= f) = f a := rfl

theorem except_bind_err {ε α β : Type} (e : ε) (f : α → Except ε β) :
    ((Except.error e : Except ε α) >>= f) = .error e := rfl

theorem except_map_ok {ε α β : Type} (f : α → β) (a : α) :
    (f <$> (Except.ok a : Except ε α)) = .ok (f a) := rfl

theorem except_map_err {ε α β : Type} (f : α → β) (e : ε) :
    (f <$> (Except.error e : Except ε α)) = .error e := rfl

theorem pyGet_nat {α : Type} (l : List α) (n : Nat) :
    pyGet l (n : Int) =
      match l.get? n with
      | some a => Except.ok a
      | none => Except.error PyErr.indexError := by
  have h1 : ¬ ((n : Int) < 0) := by omega
  unfold pyGet pyIdx
  simp only [h1, if_false]
  by_cases h : n < l.length
  · have h2 : (0 : Int) ≤ (n : Int) ∧ (n : Int) < (l.length : Int) := by
      constructor <;> omega
    rw [if_pos h2]
    simp
  · have h2 : ¬ ((0 : Int) ≤ (n : Int) ∧ (n : Int) < (l.length : Int)) := by omega
    rw [if_neg h2]
    have h3 : l.get? n = none := by
      rw [List.get?_eq_none]
      omega
    rw [h3]

theorem pyGet_nat_ok {α : Type} {l : List α} {n : Nat} {a : α}
    (h : pyGet l (n : Int) = .ok a) : l.get? n = some a := by
  rw [pyGet_nat] at h
  cases hg : l.get? n with
  | none => rw [hg] at h; exact absurd h (by simp)
  | some b => rw [hg] at h; cases h; rfl

theorem lookup_append_str {β : Type} (l1 l2 : List (String × β)) (s : String) :
    (l1 ++ l2).lookup s = ((l1.lookup s).or (l2.lookup s)) := by
  induction l1 with
  | nil => simp [List.lookup]
  | cons x t ih =>
    by_cases h : s = x.1
    · simp [List.lookup, h]
    · have hb : (s == x.1) = false := by simp [h]
      simp [List.lookup, hb, ih]

theorem count_two {α : Type} [DecidableEq α] {l : List α} {i j : Nat} {x : α}
    (hij : i < j) (hi : l.get? i = some x) (hj : l.get? j = some x) :
    2 ≤ l.count x := by
  induction l generalizing i j with
  | nil => simp at hi
  | cons a t ih =>
    cases i with
    | zero =>
      have ha : a = x := by simpa using hi
      obtain ⟨j', rfl⟩ : ∃ j', j = j' + 1 := ⟨j - 1, by omega⟩
      have hj' : t.get? j' = some x := by simpa using hj
      have hmem : x ∈ t := List.get?_mem hj'
      have h1 : 0 < t.count x := List.count_pos_iff.mpr hmem
      subst ha
      simp only [List.count_cons, beq_self_eq_true, if_true]
      omega
    | succ i' =>
      obtain ⟨j', rfl⟩ : ∃ j', j = j' + 1 := ⟨j - 1, by omega⟩
      have hi2 : t.get? i' = some x := by simpa using hi
      have hj2 : t.get? j' = some x := by simpa using hj
      have h2 : 2 ≤ t.count x := ih (by omega) hi2 hj2
      have h3 : t.count x ≤ (a :: t).count x := by
        rw [List.count_cons]
        exact Nat.le_add_right _ _
      omega

theorem str_append_empty (s : String) : s ++ "" = s := by
  cases s with
  | mk data =>
    show String.mk (data ++ []) = String.mk data
    rw [List.append_nil]

theorem str_empty_append (s : String) : "" ++ s = s := by
  cases s with
  | mk data => rfl

theorem pyLjust_of_ge {s : String} {w : Nat} (h : w ≤ s.length) :
    pyLjust s w = s := by
  unfold pyLjust spaces
  have : w - s.length = 0 := Nat.sub_eq_zero_of_le h
  rw [this]
  exact str_append_empty s

theorem pyRjust_of_ge {s : String} {w : Nat} (h : w ≤ s.length) :
    pyRjust s w = s := by
  unfold pyRjust spaces
  have : w - s.length = 0 := Nat.sub_eq_zero_of_le h
  rw [this]
  exact str_empty_append s

theorem pyCenter_of_ge {s : String} {w : Nat} (h : w ≤ s.length) :
    pyCenter s w = s := by
  unfold pyCenter
  simp [h]

theorem pyJust_of_ge {align : Align} {s : String} {w : Nat}
    (ha : align ≠ .NONE) (h : w ≤ s.length) : pyJust align s w = .ok s := by
  cases align <;>
    simp [pyJust, pyLjust_of_ge h, pyRjust_of_ge h, pyCenter_of_ge h] at ha ⊢

theorem pyMax_ok {l : List Nat} (h : l ≠ []) : pyMax l = .ok (listMax l) := by
  cases l with
  | nil => exact absurd rfl h
  | cons x xs =>
    unfold pyMax listMax
    have haux : ∀ (t : List Nat) (a b : Nat),
        t.foldl max (max a b) = max a (t.foldl max b) := by
      intro t
      induction t with
      | nil => intro a b; simp
      | cons y ys ih =>
        intro a b
        simp only [List.foldl_cons]
        rw [Nat.max_assoc, ih]
    have : xs.foldl max (max 0 x) = max 0 (xs.foldl max x) := haux xs 0 x
    simp only [List.foldl_cons]
    rw [this]
    simp

theorem listMax_append (l1 l2 : List Nat) :
    listMax (l1 ++ l2) = max (listMax l1) (listMax l2) := by
  unfold listMax
  induction l1 generalizing l2 with
  | nil => simp
  | cons x t ih =>
    have haux : ∀ (t : List Nat) (a b : Nat),
        t.foldl max (max a b) = max a (t.foldl max b) := by
      intro t
      induction t with
      | nil => intro a b; simp
      | cons y ys ih2 =>
        intro a b
        simp only [List.foldl_cons]
        rw [Nat.max_assoc, ih2]
    simp only [List.cons_append, List.foldl_cons]
    rw [show max 0 x = max x 0 from Nat.max_comm 0 x, haux, haux, ih]
    rw [← Nat.max_assoc]

/-! ## Claim C6: slice-bound resolution -/

/-- C6: for a descriptor sequence whose key map builds successfully, an
omitted start bound resolves to 0 and an omitted stop to the sequence
length; integer bounds pass through unchanged; a string start resolves to
the key's position and a string stop to the position plus one. -/
theorem C6_range_bounds (idata : List HeadAttr) (m : List (String × Nat))
    (s1 s2 : String) (p1 p2 : Nat) (a b : Int)
    (hm : getId idata = .ok m)
    (h1 : m.lookup s1 = some p1) (h2 : m.lookup s2 = some p2) :
    getIndexRange idata .omitted .omitted = .ok (0, (idata.length : Int)) ∧
    getIndexRange idata (.ipos a) (.ipos b) = .ok (a, b) ∧
    getIndexRange idata (.skey s1) (.skey s2) = .ok ((p1 : Int), (p2 : Int) + 1) ∧
    getIndexRange idata (.skey s1) (.ipos b) = .ok ((p1 : Int), b) ∧
    getIndexRange idata (.ipos a) (.skey s2) = .ok (a, (p2 : Int) + 1) ∧
    getIndexRange idata .omitted (.skey s2) = .ok (0, (p2 : Int) + 1) ∧
    getIndexRange idata (.skey s1) .omitted = .ok ((p1 : Int), (idata.length : Int)) := by
  refine ⟨rfl, rfl, ?_, ?_, ?_, ?_, ?_⟩ <;>
    simp [getIndexRange, dictGet, hm, h1, h2, except_bind_ok, except_map_ok]

/-- Witness for C6 at a concrete two-descriptor sequence. -/
theorem C6_witness :
    getIndexRange wtIdata .omitted .omitted = .ok (0, (2 : Int)) ∧
    getIndexRange wtIdata (.ipos 1) (.ipos 2) = .ok (1, 2) ∧
    getIndexRange wtIdata (.skey "a") (.skey "b") = .ok (0, 2) ∧
    getIndexRange wtIdata (.skey "a") (.ipos 2) = .ok (0, 2) ∧
    getIndexRange wtIdata (.ipos 1) (.skey "b") = .ok (1, 2) ∧
    getIndexRange wtIdata .omitted (.skey "b") = .ok (0, 2) ∧
    getIndexRange wtIdata (.skey "a") .omitted = .ok (0, 2) :=
  C6_range_bounds wtIdata [("a", 0), ("b", 1)] "a" "b" 0 1 1 2
    (by decide) (by decide) (by decide)

/-! ## Claim C7: eager whole-sequence key validation -/

theorem getIdAux_ok_str {l : List HeadAttr} :
    ∀ {acc : List (String × Nat)} {i : Nat} {m : List (String × Nat)},
      getIdAux acc i l = .ok m → ∀ cell ∈ l, ∃ s, cell.key = KeyV.kstr s := by
  induction l with
  | nil =>
    intro acc i m _ cell hc
    simp at hc
  | cons x t ih =>
    intro acc i m h cell hc
    unfold getIdAux at h
    cases hk : x.key with
    | knone =>
      rw [hk] at h
      dsimp only at h
      exact absurd h (by simp)
    | kstr s =>
      rw [hk] at h
      dsimp only at h
      by_cases hl : (acc.lookup s).isSome
      · rw [if_pos hl] at h
        exact absurd h (by simp)
      · rw [if_neg hl] at h
        cases hc with
        | head => exact ⟨s, hk⟩
        | tail _ hc2 => exact ih h cell hc2

theorem getIdAux_ok_count {l : List HeadAttr} :
    ∀ {acc : List (String × Nat)} {i : Nat} {m : List (String × Nat)},
      getIdAux acc i l = .ok m → ∀ s : String,
        (l.map HeadAttr.key).count (KeyV.kstr s) ≤ 1 ∧
        ((acc.lookup s).isSome → (l.map HeadAttr.key).count (KeyV.kstr s) = 0) := by
  induction l with
  | nil =>
    intro acc i m _ s
    simp
  | cons x t ih =>
    intro acc i m h s
    unfold getIdAux at h
    cases hk : x.key with
    | knone =>
      rw [hk] at h
      dsimp only at h
      exact absurd h (by simp)
    | kstr s0 =>
      rw [hk] at h
      dsimp only at h
      by_cases hl : (acc.lookup s0).isSome
      · rw [if_pos hl] at h
        exact absurd h (by simp)
      · rw [if_neg hl] at h
        have ihs := ih h s
        have hsome : ((acc ++ [(s0, i)]).lookup s0).isSome := by
          rw [lookup_append_str]
          cases hcc : acc.lookup s0 with
          | some v => simp [hcc]
          | none => simp [hcc, List.lookup]
        by_cases hss : s = s0
        · subst hss
          have hz : (t.map HeadAttr.key).count (KeyV.kstr s) = 0 := ihs.2 hsome
          constructor
          · simp [List.count_cons, hk, hz]
          · intro hacc
            exact absurd hacc hl
        · have hne : (KeyV.kstr s0 == KeyV.kstr s) = false := by
            simp
            intro hcontra
            exact hss hcontra.symm
          constructor
          · simp only [List.map_cons, hk, List.count_cons, hne, Bool.false_eq_true,
              if_false]
            omega
          · intro hacc
            have : ((acc ++ [(s0, i)]).lookup s).isSome := by
              rw [lookup_append_str]
              cases hcc : acc.lookup s with
              | some v => simp [hcc]
              | none =>
                rw [hcc] at hacc
                simp at hacc
            have hz := ihs.2 this
            simp only [List.map_cons, hk, List.count_cons, hne, Bool.false_eq_true,
              if_false]
            omega

/-- The key→position map fails to build whenever the sequence holds a
non-string key or two equal string keys anywhere. -/
theorem getId_bad_errors (idata : List HeadAttr)
    (hbad : (∃ cell ∈ idata, cell.key = KeyV.knone) ∨
            (∃ i j s, i < j ∧
              (idata.map HeadAttr.key).get? i = some (KeyV.kstr s) ∧
              (idata.map HeadAttr.key).get? j = some (KeyV.kstr s))) :
    ∃ e, getId idata = .error e := by
  cases hg : getId idata with
  | error e => exact ⟨e, rfl⟩
  | ok m =>
    exfalso
    rcases hbad with ⟨cell, hmem, hnone⟩ | ⟨i, j, s, hij, hi, hj⟩
    · obtain ⟨s, hs⟩ := getIdAux_ok_str hg cell hmem
      rw [hnone] at hs
      exact absurd hs (by simp)
    · have hcnt := (getIdAux_ok_count hg s).1
      have := count_two hij hi hj
      omega

/-- C7: while any descriptor in the sequence has a non-string key or any
two descriptors share a key, every lookup by string key fails — even for
an unrelated, well-formed key — while integer addressing is unaffected. -/
theorem C7_eager_key_validation (idata : List HeadAttr)
    (hbad : (∃ cell ∈ idata, cell.key = KeyV.knone) ∨
            (∃ i j s, i < j ∧
              (idata.map HeadAttr.key).get? i = some (KeyV.kstr s) ∧
              (idata.map HeadAttr.key).get? j = some (KeyV.kstr s))) :
    (∀ s : String, ∃ e, getIndexOne idata (.key s) = .error e) ∧
    (∀ n : Int, getIndexOne idata (.pos n) = .ok n) := by
  obtain ⟨e, he⟩ := getId_bad_errors idata hbad
  constructor
  · intro s
    refine ⟨e, ?_⟩
    simp [getIndexOne, he, except_bind_err]
  · intro n
    rfl

/-- Witness for C7: a duplicated key `"a"` makes even the lookup of the
well-formed key `"b"` fail, while integer addressing still passes
through. -/
theorem C7_witness :
    (∃ e, getIndexOne wtDup (.key "b") = .error e) ∧
    getIndexOne wtDup (.pos 2) = .ok 2 :=
  ⟨(C7_eager_key_validation wtDup
      (Or.inr ⟨0, 1, "a", by omega, by decide, by decide⟩)).1 "b",
   (C7_eager_key_validation wtDup
      (Or.inr ⟨0, 1, "a", by omega, by decide, by decide⟩)).2 2⟩

/-! ## Claim C8: overflow boundary -/

/-- C8: a rendered cell segment triggers the overflow policy exactly when
its length strictly exceeds the column width.  At length `≤ w` the output
is padding plus the justified segment plus padding; in particular at
length exactly `w` the full segment is emitted untouched.  At length
`> w` the output is the truncated-with-`>` form (partial printing) or the
soft-wrap form; in particular length `w + 1` always overflows. -/
theorem C8_overflow_iff (partp : Bool) (o1 o2 : String) (align : Align)
    (w : Nat) (s : String) (acc : Nat) (ha : align ≠ .NONE) :
    (∀ j, pyJust align s w = .ok j →
      (s.length ≤ w → renderCell partp o1 o2 align w s acc = .ok (o1 ++ j ++ o2)) ∧
      (w < s.length → renderCell partp o1 o2 align w s acc =
        .ok (if partp then o1 ++ pySliceTo j ((w : Int) - 1) ++ ">" ++ o2
             else o1 ++ j ++ "\n" ++ spaces acc))) ∧
    (s.length = w → renderCell partp o1 o2 align w s acc = .ok (o1 ++ s ++ o2)) ∧
    (s.length = w + 1 → renderCell partp o1 o2 align w s acc =
      .ok (if partp then o1 ++ s.take (w - 1) ++ ">" ++ o2
           else o1 ++ s ++ "\n" ++ spaces acc)) := by
  refine ⟨?_, ?_, ?_⟩
  · intro j hj
    constructor
    · intro hle
      have hgt : ¬ (s.length > w) := by omega
      simp [renderCell, hj, except_bind_ok, hgt]
    · intro hlt
      have hgt : s.length > w := hlt
      cases partp <;> simp [renderCell, hj, except_bind_ok, hgt]
  · intro he
    have hj : pyJust align s w = .ok s := pyJust_of_ge ha (by omega)
    have hgt : ¬ (s.length > w) := by omega
    simp [renderCell, hj, except_bind_ok, hgt]
  · intro he
    have hj : pyJust align s w = .ok s := pyJust_of_ge ha (by omega)
    have hgt : s.length > w := by omega
    have hslice : pySliceTo s ((w : Int) - 1) = s.take (w - 1) := by
      unfold pySliceTo
      by_cases hw : w = 0
      · subst hw
        rw [if_pos (by omega : ((0 : Nat) : Int) - 1 < 0)]
        congr 1
        omega
      · rw [if_neg (by omega : ¬ ((w : Int) - 1 < 0))]
        congr 1
        omega
    cases partp <;> simp [renderCell, hj, except_bind_ok, hgt, hslice]

/-- Witness for C8 at the boundary widths 3/4 for a 4-character segment. -/
theorem C8_witness :
    ((∀ j, pyJust .TL "abcd" 4 = .ok j →
      ("abcd".length ≤ 4 → renderCell true " " " " .TL 4 "abcd" 0 = .ok (" " ++ j ++ " ")) ∧
      (4 < "abcd".length → renderCell true " " " " .TL 4 "abcd" 0 =
        .ok (if true then " " ++ pySliceTo j ((4 : Int) - 1) ++ ">" ++ " "
             else " " ++ j ++ "\n" ++ spaces 0))) ∧
     ("abcd".length = 4 → renderCell true " " " " .TL 4 "abcd" 0 = .ok (" " ++ "abcd" ++ " ")) ∧
     ("abcd".length = 4 + 1 → renderCell true " " " " .TL 4 "abcd" 0 =
       .ok (if true then " " ++ "abcd".take (4 - 1) ++ ">" ++ " "
            else " " ++ "abcd" ++ "\n" ++ spaces 0))) ∧
    ((∀ j, pyJust .TL "abcd" 3 = .ok j →
      ("abcd".length ≤ 3 → renderCell true " " " " .TL 3 "abcd" 0 = .ok (" " ++ j ++ " ")) ∧
      (3 < "abcd".length → renderCell true " " " " .TL 3 "abcd" 0 =
        .ok (if true then " " ++ pySliceTo j ((3 : Int) - 1) ++ ">" ++ " "
             else " " ++ j ++ "\n" ++ spaces 0))) ∧
     ("abcd".length = 3 → renderCell true " " " " .TL 3 "abcd" 0 = .ok (" " ++ "abcd" ++ " ")) ∧
     ("abcd".length = 3 + 1 → renderCell true " " " " .TL 3 "abcd" 0 =
       .ok (if true then " " ++ "abcd".take (3 - 1) ++ ">" ++ " "
            else " " ++ "abcd" ++ "\n" ++ spaces 0))) :=
  ⟨C8_overflow_iff true " " " " .TL 4 "abcd" 0 (by decide),
   C8_overflow_iff true " " " " .TL 3 "abcd" 0 (by decide)⟩

/-! ## Claim C9: bulk attribute setters on shape mismatch -/

/-- C9 (code bug): on a length mismatch `Index._set_attr` raises
`NameError` — its error message f-string references `ax1`/`ax2`, which
are never assigned in that method — instead of the intended `ValueError`;
`AttrArray._set_attr` does raise the shape-mismatch `ValueError`.  In
both cases the operation fails before any element is updated, so no cell
attribute is mutated. -/
theorem C9_setter_shape_mismatch :
    indexSetAttr wtIdata (fun h v => { h with key := v }) [KeyV.kstr "x"] =
      .error (.nameError "name 'ax1' is not defined") ∧
    attrArraySetAttr (AArr.one [{}, {}]) (fun a v => { a with align := v })
        (VL.vone [Align.CC]) =
      .error (.valueError "Shapes difference.") ∧
    attrArraySetAttr (AArr.two [[{}, {}], [{}, {}]])
        (fun a v => { a with align := v })
        (VL.vtwo [[Align.CC, Align.CC]]) =
      .error (.valueError "Shapes difference.") := by
  refine ⟨?_, ?_, ?_⟩ <;> rfl

/-! ## Claim C10 / C5 machinery: the `add_row` / `add_col` loops -/

theorem except_ok_of_bind {ε α β : Type} {x : Except ε α} {f : α → Except ε β}
    {b : β} (h : (x >>= f) = .ok b) : ∃ a, x = .ok a ∧ f a = .ok b := by
  cases x with
  | ok a => exact ⟨a, rfl, h⟩
  | error e => exact absurd h (by simp [except_bind_err])

theorem get?_of_lt_getD {α : Type} {l : List α} {i : Nat} (h : i < l.length)
    (d : α) : l.get? i = some (l.getD i d) := by
  rw [List.getD_eq_get?]
  cases hg : l.get? i with
  | none =>
    rw [List.get?_eq_none] at hg
    omega
  | some x => rfl

theorem readPrev_ok {attrCur : List (List TableAttr)} {rid : Int} {i : Nat}
    {prow : List TableAttr} {pc : TableAttr} {α : Type}
    (h1 : pyGet attrCur (rid - 1) = .ok prow) (h2 : prow.get? i = some pc)
    (f : TableAttr → α) : readPrev attrCur rid i f = .ok (f pc) := by
  unfold readPrev
  rw [h1, except_bind_ok, pyGet_nat, h2, except_bind_ok]
  rfl

theorem optPick_first {α : Type} (dflt : α) (given : Option α)
    (read : Except PyErr α) : optPick true dflt given read = .ok (given.getD dflt) :=
  rfl

theorem optPick_rest {α : Type} (dflt : α) (given : Option α) (x : α) :
    optPick false dflt given (.ok x) = .ok (given.getD x) := by
  cases given <;> rfl

theorem alignPick_first (given : Align) (read : Except PyErr Align) :
    alignPick true given read = .ok (if given ≠ Align.NONE then given else Align.TL) :=
  rfl

theorem except_pure {ε α : Type} (a : α) : (pure a : Except ε α) = .ok a := rfl

theorem alignPick_rest (given : Align) (x : Align) :
    alignPick false given (.ok x) = .ok (if given ≠ Align.NONE then given else x) := by
  by_cases h : given = Align.NONE <;> simp [alignPick, h, except_pure]

theorem borderPick_first (given : Option Border) (read : Except PyErr (Option Border)) :
    borderPick true given read = .ok (some (given.getD {})) :=
  rfl

theorem borderPick_rest (given : Option Border) (x : Option Border) :
    borderPick false given (.ok x) = .ok ((given.map some).getD x) := by
  cases given <;> rfl

/-- Whatever the attribute-defaulting does, a successful `add_row` loop
appends exactly one value cell per processed column index, taking
`data[i]` when available and `init` otherwise. -/
theorem addRowLoop_row {attrOld : List (List TableAttr)} {data : List String}
    {init : String} {rid : Int} {posA max_row2 : Nat} {align : Align}
    {is_sep : Option Bool} {fs : Option String} {border : Option Border} :
    ∀ {idx : List Nat} {row : List String} {arow : List TableAttr}
      {out : List String × List TableAttr},
      addRowLoop attrOld data init rid posA max_row2 align is_sep fs border
        idx (row, arow) = .ok out →
      out.1 = row ++ idx.map (fun i => data.getD i init) ∧
      out.2.length = arow.length + idx.length := by
  intro idx
  induction idx with
  | nil =>
    intro row arow out h
    simp only [addRowLoop] at h
    cases h
    simp
  | cons i rest ih =>
    intro row arow out h
    simp only [addRowLoop] at h
    obtain ⟨a1, _, h⟩ := except_ok_of_bind h
    obtain ⟨a2, _, h⟩ := except_ok_of_bind h
    obtain ⟨a3, _, h⟩ := except_ok_of_bind h
    obtain ⟨a4, _, h⟩ := except_ok_of_bind h
    obtain ⟨h1, h2⟩ := ih h
    constructor
    · rw [h1]
      simp
    · rw [h2]
      simp
      omega

/-- First-row case of the `add_row` loop (`self.max_row == 1`): every
attribute falls back to the fixed baseline when unspecified — `Align.TL`,
no split, format `"\x7b\x7d"`, an all-edges border. -/
theorem addRowLoop_first {attrOld : List (List TableAttr)} {data : List String}
    {init : String} {rid : Int} {posA : Nat} {align : Align}
    {is_sep : Option Bool} {fs : Option String} {border : Option Border} :
    ∀ (idx : List Nat) (row : List String) (arow : List TableAttr),
      addRowLoop attrOld data init rid posA 1 align is_sep fs border
        idx (row, arow) =
      .ok (row ++ idx.map (fun i => data.getD i init),
           arow ++ idx.map (fun _ =>
             ({ align := if align ≠ Align.NONE then align else Align.TL,
                is_sep := is_sep.getD false,
                fs := fs.getD "\x7b\x7d",
                border := some (border.getD {}) } : TableAttr))) := by
  intro idx
  induction idx with
  | nil =>
    intro row arow
    simp [addRowLoop]
  | cons i rest ih =>
    intro row arow
    simp only [addRowLoop, beq_self_eq_true, alignPick_first, optPick_first,
      borderPick_first, except_bind_ok]
    rw [ih]
    simp

/-- Inheritance case of the `add_row` loop: when the table already has
rows, every unspecified attribute is copied from `self._attr[rid-1][i]`. -/
theorem addRowLoop_inherit {attrOld : List (List TableAttr)} {data : List String}
    {init : String} {rid : Int} {posA max_row2 : Nat} {align : Align}
    {is_sep : Option Bool} {fs : Option String} {border : Option Border}
    {prow : List TableAttr}
    (hm : max_row2 ≠ 1)
    (hget : ∀ arow : List TableAttr,
      pyGet (attrOld.take posA ++ arow :: attrOld.drop posA) (rid - 1) = .ok prow) :
    ∀ (idx : List Nat), (∀ i ∈ idx, i < prow.length) →
      ∀ (row : List String) (arow : List TableAttr),
      addRowLoop attrOld data init rid posA max_row2 align is_sep fs border
        idx (row, arow) =
      .ok (row ++ idx.map (fun i => data.getD i init),
           arow ++ idx.map (fun i =>
             ({ align := if align ≠ Align.NONE then align
                         else (prow.getD i {}).align,
                is_sep := is_sep.getD (prow.getD i {}).is_sep,
                fs := fs.getD (prow.getD i {}).fs,
                border := (border.map some).getD (prow.getD i {}).border }
              : TableAttr))) := by
  have hbeq : (max_row2 == 1) = false := by
    simp [hm]
  intro idx
  induction idx with
  | nil =>
    intro _ row arow
    simp [addRowLoop]
  | cons i rest ih =>
    intro hlt row arow
    have hi : i < prow.length := hlt i (by simp)
    have hpc : prow.get? i = some (prow.getD i {}) := get?_of_lt_getD hi _
    simp only [addRowLoop, hbeq,
      readPrev_ok (hget arow) hpc TableAttr.align,
      readPrev_ok (hget arow) hpc TableAttr.is_sep,
      readPrev_ok (hget arow) hpc TableAttr.fs,
      readPrev_ok (hget arow) hpc TableAttr.border,
      alignPick_rest, optPick_rest, borderPick_rest, except_bind_ok]
    rw [ih (fun x hx => hlt x (by simp [hx]))]
    simp

theorem pyInsert_append {α : Type} (l : List α) (cid : Int) (a : α)
    (h : (l.length : Int) ≤ cid) : pyInsert l cid a = l ++ [a] := by
  unfold pyInsert pyInsertPos
  rw [if_neg (by omega : ¬ (cid < 0))]
  have h2 : min cid.toNat l.length = l.length := by omega
  simp only [h2, List.take_length, List.drop_length]

/-- Characterization of the `add_col` per-row loop over a duplicate-free
index list: each listed grid row gets the value/attribute inserted at
`cid`, all other rows are untouched. -/
theorem addColLoop_char {cid : Int} {data : List String} {init : String}
    {attrNew : TableAttr} :
    ∀ {idx : List Nat}, idx.Nodup →
    ∀ {tbl : List (List String)} {att : List (List TableAttr)}
      {out : List (List String) × List (List TableAttr)},
      addColLoop cid data init attrNew idx (tbl, att) = .ok out →
      out.1.length = tbl.length ∧ out.2.length = att.length ∧
      ∀ r : Nat,
        (out.1.get? r = if r ∈ idx
          then (tbl.get? r).map (fun trow => pyInsert trow cid (data.getD r init))
          else tbl.get? r) ∧
        (out.2.get? r = if r ∈ idx
          then (att.get? r).map (fun arow => pyInsert arow cid attrNew)
          else att.get? r) := by
  intro idx
  induction idx with
  | nil =>
    intro _ tbl att out h
    simp only [addColLoop] at h
    cases h
    simp
  | cons i rest ih =>
    intro hnd tbl att out h
    have hnd2 : rest.Nodup := hnd.of_cons
    have hnmem : i ∉ rest := (List.nodup_cons.mp hnd).1
    simp only [addColLoop] at h
    obtain ⟨trow, htrow, h⟩ := except_ok_of_bind h
    obtain ⟨arow, harow, h⟩ := except_ok_of_bind h
    have htrow' : tbl.get? i = some trow := pyGet_nat_ok htrow
    have harow' : att.get? i = some arow := pyGet_nat_ok harow
    have hilt : i < tbl.length := by
      by_contra hc
      rw [List.get?_eq_none.mpr (by omega)] at htrow'
      exact absurd htrow' (by simp)
    have hilt2 : i < att.length := by
      by_contra hc
      rw [List.get?_eq_none.mpr (by omega)] at harow'
      exact absurd harow' (by simp)
    have hall := ih hnd2 h
    refine ⟨by rw [hall.1, List.length_set], by rw [hall.2.1, List.length_set], ?_⟩
    intro r
    have hrec := hall.2.2
    by_cases hri : r = i
    · subst hri
      have h1 := (hrec r).1
      have h2 := (hrec r).2
      rw [if_neg hnmem] at h1 h2
      rw [h1, h2]
      have e1 : (tbl.set r (pyInsert trow cid (data.getD r init))).get? r =
          some (pyInsert trow cid (data.getD r init)) :=
        List.get?_set_eq_of_lt _ hilt
      have e2 : (att.set r (pyInsert arow cid attrNew)).get? r =
          some (pyInsert arow cid attrNew) :=
        List.get?_set_eq_of_lt _ hilt2
      rw [e1, e2, if_pos (by simp), if_pos (by simp), htrow', harow']
      simp
    · have h1 := (hrec r).1
      have h2 := (hrec r).2
      have e1 : (tbl.set i (pyInsert trow cid (data.getD i init))).get? r =
          tbl.get? r := List.get?_set_ne _ _ (fun hc => hri hc.symm)
      have e2 : (att.set i (pyInsert arow cid attrNew)).get? r =
          att.get? r := List.get?_set_ne _ _ (fun hc => hri hc.symm)
      rw [e1] at h1
      rw [e2] at h2
      rw [h1, h2]
      have hmem : r ∈ i :: rest ↔ r ∈ rest := by
        simp [hri]
      by_cases hm : r ∈ rest
      · rw [if_pos hm, if_pos hm, if_pos (hmem.mpr hm), if_pos (hmem.mpr hm)]
        exact ⟨rfl, rfl⟩
      · rw [if_neg hm, if_neg hm, if_neg (fun hc => hm (hmem.mp hc)),
          if_neg (fun hc => hm (hmem.mp hc))]
        exact ⟨rfl, rfl⟩

theorem except_map_ok2 {ε α β : Type} (f : α → β) (a : α) :
    Except.map f (.ok a : Except ε α) = .ok (f a) := rfl

theorem pyInsertPos_nat (len n : Nat) : pyInsertPos len (n : Int) = min n len := by
  unfold pyInsertPos
  rw [if_neg (by omega : ¬ ((n : Int) < 0))]
  simp

/-! ## Claim C10: value filling in `add_row` / `add_col` -/

/-- C10 (amended): for every `add_row` / `add_col` call that completes
without raising — appending or inserting at any resolvable position —
the new line has exactly the grid's cross dimension: `add_row` builds a
row of `max_col` cells with cell `i` holding `data[i]` when available and
`init` otherwise (extra entries of `data` ignored), and `add_col` splices
`data[r]`-or-`init` into every grid row at the insertion position.  The
claim's universal quantification over every call fails on the raising
calls: see the counterexample, where an out-of-range integer position
leaves an inserted row with zero cells. -/
theorem C10_data_fill :
    (∀ (st : STable) (key : KeyV) (title : String) (data : List String)
        (init : String) (loc : Option Loc) (rid : Int) (align : Align)
        (sp : Option Bool) (fs : Option String) (bord : Option Border)
        (st' : STable),
      (match loc with
       | none => (pure (st.max_row : Int) : Except PyErr Int)
       | some l => resolveLoc st.index l) = .ok rid →
      st.add_row key title data init loc align sp fs bord = .ok st' →
      st'.table = st.table.take (pyInsertPos st.table.length rid) ++
        ((List.range st.header.length).map fun i => data.getD i init) ::
        st.table.drop (pyInsertPos st.table.length rid)) ∧
    (∀ (st : STable) (key : KeyV) (title : String) (data : List String)
        (init : String) (loc : Option Loc) (cid : Int) (align : Align)
        (sp : Bool) (fs : String) (bord : Option Border) (st' : STable),
      st.max_row = st.table.length →
      (match loc with
       | none => (pure (st.max_col : Int) : Except PyErr Int)
       | some l => resolveLoc st.header l) = .ok cid →
      st.add_col key title data init loc align sp fs bord = .ok st' →
      st'.table.length = st.table.length ∧
      ∀ r trow, st.table.get? r = some trow →
        st'.table.get? r = some (pyInsert trow cid (data.getD r init))) := by
  constructor
  · intro st key title data init loc rid align sp fs bord st' hrid h
    unfold STable.add_row at h
    cases loc with
    | none =>
      obtain ⟨rid2, hrid2, h⟩ := except_ok_of_bind h
      have he := Except.ok.inj (hrid.symm.trans hrid2)
      subst he
      obtain ⟨ra, hloop, hpure⟩ := except_ok_of_bind h
      obtain ⟨row, arow⟩ := ra
      simp only [except_pure] at hpure
      have hrow := (addRowLoop_row hloop).1
      have hst : st'.table =
          st.table.take (pyInsertPos st.table.length rid) ++
            row :: st.table.drop (pyInsertPos st.table.length rid) := by
        cases hpure
        rfl
      rw [hst]
      rw [show row = (List.range st.header.length).map
        (fun i => data.getD i init) from by simpa using hrow]
    | some l =>
      obtain ⟨rid2, hrid2, h⟩ := except_ok_of_bind h
      have he := Except.ok.inj (hrid.symm.trans hrid2)
      subst he
      obtain ⟨ra, hloop, hpure⟩ := except_ok_of_bind h
      obtain ⟨row, arow⟩ := ra
      simp only [except_pure] at hpure
      have hrow := (addRowLoop_row hloop).1
      have hst : st'.table =
          st.table.take (pyInsertPos st.table.length rid) ++
            row :: st.table.drop (pyInsertPos st.table.length rid) := by
        cases hpure
        rfl
      rw [hst]
      rw [show row = (List.range st.header.length).map
        (fun i => data.getD i init) from by simpa using hrow]
  · intro st key title data init loc cid align sp fs bord st' hmr hcid h
    unfold STable.add_col at h
    cases loc with
    | none =>
      obtain ⟨cid2, hcid2, h⟩ := except_ok_of_bind h
      have he := Except.ok.inj (hcid.symm.trans hcid2)
      subst he
      obtain ⟨ta, hloop, hpure⟩ := except_ok_of_bind h
      obtain ⟨tbl, att⟩ := ta
      simp only [except_pure] at hpure
      rw [hmr] at hloop
      have hchar := addColLoop_char (List.nodup_range _) hloop
      have hst : st'.table = tbl := by
        cases hpure
        rfl
      refine ⟨by rw [hst]; exact hchar.1, ?_⟩
      intro r trow htrow
      have hr : r < st.table.length := by
        by_contra hc
        rw [List.get?_eq_none.mpr (by omega)] at htrow
        exact absurd htrow (by simp)
      have hmem : r ∈ List.range st.table.length := List.mem_range.mpr hr
      have h1 := (hchar.2.2 r).1
      rw [if_pos hmem, htrow] at h1
      rw [hst, h1, Option.map_some']
    | some l =>
      obtain ⟨cid2, hcid2, h⟩ := except_ok_of_bind h
      have he := Except.ok.inj (hcid.symm.trans hcid2)
      subst he
      obtain ⟨ta, hloop, hpure⟩ := except_ok_of_bind h
      obtain ⟨tbl, att⟩ := ta
      simp only [except_pure] at hpure
      rw [hmr] at hloop
      have hchar := addColLoop_char (List.nodup_range _) hloop
      have hst : st'.table = tbl := by
        cases hpure
        rfl
      refine ⟨by rw [hst]; exact hchar.1, ?_⟩
      intro r trow htrow
      have hr : r < st.table.length := by
        by_contra hc
        rw [List.get?_eq_none.mpr (by omega)] at htrow
        exact absurd htrow (by simp)
      have hmem : r ∈ List.range st.table.length := List.mem_range.mpr hr
      have h1 := (hchar.2.2 r).1
      rw [if_pos hmem, htrow] at h1
      rw [hst, h1, Option.map_some']

/-- C10 counterexample: inserting a row at the out-of-range integer
position 5 of a one-column, one-row table clamps the list insertions (so
the bare row lands at the end of the grid), but the inheritance read
`_attr[5-1]` then raises `IndexError` before any cell is appended: the
call leaves the table mutated, with an inserted row of 0 ≠ 1 cells,
contradicting the claim for that call. -/
theorem C10_counterexample :
    (wtTab1.add_row_state (.kstr "r9") "" ["q"] "" (some (.pos 5)) .NONE
        none none none).1.table = [["x"], []] ∧
    (wtTab1.add_row_state (.kstr "r9") "" ["q"] "" (some (.pos 5)) .NONE
        none none none).2 = some .indexError ∧
    ([] : List String).length ≠ wtTab1.header.length :=
  ⟨by decide, by decide, by decide⟩

/-- Witness for C10: a two-column table and a one-row table, with `data`
longer than the target dimension (the extra entry is dropped) and with
`data` shorter (the `init` value fills the gap). -/
theorem C10_witness :
    (wtTab4.add_row (.kstr "r") "" ["1", "2", "3"] "-" none .NONE none none none).map
        STable.table = .ok [["1", "2"]] ∧
    (wtTab1.add_col (.kstr "b") "B" [] "-" none .TL false "{}" none).map
        STable.table = .ok [["x", "-"]] := by
  have h1 : wtTab1.max_row = wtTab1.table.length := by decide
  cases hr : wtTab4.add_row (.kstr "r") "" ["1", "2", "3"] "-" none .NONE none none none with
  | error e =>
    have : (wtTab4.add_row (.kstr "r") "" ["1", "2", "3"] "-" none .NONE none none
        none).isOk = true := by decide
    rw [hr] at this
    exact absurd this (by simp [Except.isOk, Except.toBool])
  | ok stA =>
    cases hc : wtTab1.add_col (.kstr "b") "B" [] "-" none .TL false "{}" none with
    | error e =>
      have : (wtTab1.add_col (.kstr "b") "B" [] "-" none .TL false "{}"
          none).isOk = true := by decide
      rw [hc] at this
      exact absurd this (by simp [Except.isOk, Except.toBool])
    | ok stB =>
      have hA := C10_data_fill.1 wtTab4 (.kstr "r") "" ["1", "2", "3"] "-" none
        (wtTab4.max_row : Int) .NONE none none none stA rfl hr
      have hB := C10_data_fill.2 wtTab1 (.kstr "b") "B" [] "-" none
        (wtTab1.max_col : Int) .TL false "{}" none stB h1 rfl hc
      constructor
      · rw [except_map_ok2, hA]
        rfl
      · rw [except_map_ok2]
        have hB2 := hB.2 0 ["x"] (by decide)
        have hBlen := hB.1
        have hfin : stB.table = [["x", "-"]] := by
          have hlen : stB.table.length = 1 := by
            rw [hBlen]
            decide
          cases hTT : stB.table with
          | nil =>
            rw [hTT] at hlen
            simp at hlen
          | cons a t =>
            rw [hTT] at hlen hB2
            cases t with
            | nil =>
              simp at hB2
              rw [hB2]
              decide
            | cons b t2 =>
              simp at hlen
        rw [hfin]

/-! ## Claim C5: attribute defaulting in `add_row` / `add_col` -/

/-- C5 counterexample: on a table whose single existing column cell is
bottom-right aligned, `add_col` with unspecified attributes installs a
top-left cell with a `None` border — it does not copy the previous
column's `Align.BR` / all-edges-border attribute as the claim states. -/
theorem C5_counterexample :
    (wtTab1.add_col (.kstr "b") "B" [] "" none .TL false "\x7b\x7d" none).map
        (fun s => (s.attr.getD 0 []).getD 1 {}) =
      .ok { align := .TL, is_sep := false, fs := "\x7b\x7d", border := none } ∧
    (wtTab1.attr.getD 0 []).getD 0 {} =
      { align := .BR, is_sep := false, fs := "\x7b\x7d", border := some {} } ∧
    ({ align := .TL, is_sep := false, fs := "\x7b\x7d", border := none } : TableAttr) ≠
      { align := .BR, is_sep := false, fs := "\x7b\x7d", border := some {} } := by
  refine ⟨?_, ?_, ?_⟩ <;> decide

/-- C5 (amended): for `add_row`, each unspecified attribute of the new
cells is copied from `self._attr[rid-1][i]`, read with Python index
semantics against the attribute array that already holds the new
(partially built) row at the insertion position — for positions
`1 ≤ rid ≤ old row count` that is the row directly above the insertion
point, while inserting at position 0 of a non-empty table wraps around
and copies from the last row; the fixed baseline (top-left, no split,
format `"\x7b\x7d"`, all-edges border) applies exactly when the table had
no rows, whatever the insertion position.  `add_col` performs no
inheritance at any position: the new cells take the call's attribute
arguments directly — fixed defaults top-left / no-split / `"\x7b\x7d"`
and a `None` border when unspecified — regardless of the neighbouring
columns' attributes. -/
theorem C5_attr_inheritance :
    (∀ (st : STable) (key : KeyV) (title : String) (data : List String)
        (init : String) (loc : Option Loc) (rid : Int) (align : Align)
        (sp : Option Bool) (fs : Option String) (bord : Option Border)
        (st' : STable),
      st.max_row = 0 →
      (match loc with
       | none => (pure (st.max_row : Int) : Except PyErr Int)
       | some l => resolveLoc st.index l) = .ok rid →
      st.add_row key title data init loc align sp fs bord = .ok st' →
      st'.attr = st.attr.take (pyInsertPos st.attr.length rid) ++
        ((List.range st.header.length).map fun _ =>
          ({ align := if align ≠ Align.NONE then align else Align.TL,
             is_sep := sp.getD false, fs := fs.getD "\x7b\x7d",
             border := some (bord.getD {}) } : TableAttr)) ::
        st.attr.drop (pyInsertPos st.attr.length rid)) ∧
    (∀ (st : STable) (key : KeyV) (title : String) (data : List String)
        (init : String) (loc : Option Loc) (rid : Int) (align : Align)
        (sp : Option Bool) (fs : Option String) (bord : Option Border)
        (st' : STable) (prow : List TableAttr),
      1 ≤ st.max_row →
      (∀ arow : List TableAttr,
        pyGet (st.attr.take (pyInsertPos st.attr.length rid) ++
          arow :: st.attr.drop (pyInsertPos st.attr.length rid)) (rid - 1) =
          .ok prow) →
      prow.length = st.header.length →
      (match loc with
       | none => (pure (st.max_row : Int) : Except PyErr Int)
       | some l => resolveLoc st.index l) = .ok rid →
      st.add_row key title data init loc align sp fs bord = .ok st' →
      st'.attr = st.attr.take (pyInsertPos st.attr.length rid) ++
        ((List.range st.header.length).map fun i =>
          ({ align := if align ≠ Align.NONE then align else (prow.getD i {}).align,
             is_sep := sp.getD (prow.getD i {}).is_sep,
             fs := fs.getD (prow.getD i {}).fs,
             border := (bord.map some).getD (prow.getD i {}).border }
           : TableAttr)) ::
        st.attr.drop (pyInsertPos st.attr.length rid)) ∧
    (∀ (st : STable) (key : KeyV) (title : String) (data : List String)
        (init : String) (loc : Option Loc) (cid : Int) (align : Align)
        (sp : Bool) (fs : String) (bord : Option Border) (st' : STable),
      st.max_row = st.attr.length →
      (match loc with
       | none => (pure (st.max_col : Int) : Except PyErr Int)
       | some l => resolveLoc st.header l) = .ok cid →
      st.add_col key title data init loc align sp fs bord = .ok st' →
      st'.attr.length = st.attr.length ∧
      ∀ r arow, st.attr.get? r = some arow →
        st'.attr.get? r = some (pyInsert arow cid
          ({ align := align, is_sep := sp, fs := fs, border := bord }
            : TableAttr))) := by
  refine ⟨?_, ?_, ?_⟩
  · intro st key title data init loc rid align sp fs bord st' hmr hrid h
    unfold STable.add_row at h
    cases loc with
    | none =>
      obtain ⟨rid2, hrid2, h⟩ := except_ok_of_bind h
      have he := Except.ok.inj (hrid.symm.trans hrid2)
      subst he
      simp only [hmr] at h
      rw [addRowLoop_first] at h
      simp only [except_bind_ok, except_pure] at h
      have hattr : st'.attr =
          st.attr.take (pyInsertPos st.attr.length rid) ++
            ([] ++ (List.range st.header.length).map fun _ =>
              ({ align := if align ≠ Align.NONE then align else Align.TL,
                 is_sep := sp.getD false, fs := fs.getD "\x7b\x7d",
                 border := some (bord.getD {}) } : TableAttr)) ::
            st.attr.drop (pyInsertPos st.attr.length rid) := by
        cases h
        rfl
      rw [hattr]
      simp
    | some l =>
      obtain ⟨rid2, hrid2, h⟩ := except_ok_of_bind h
      have he := Except.ok.inj (hrid.symm.trans hrid2)
      subst he
      simp only [hmr] at h
      rw [addRowLoop_first] at h
      simp only [except_bind_ok, except_pure] at h
      have hattr : st'.attr =
          st.attr.take (pyInsertPos st.attr.length rid) ++
            ([] ++ (List.range st.header.length).map fun _ =>
              ({ align := if align ≠ Align.NONE then align else Align.TL,
                 is_sep := sp.getD false, fs := fs.getD "\x7b\x7d",
                 border := some (bord.getD {}) } : TableAttr)) ::
            st.attr.drop (pyInsertPos st.attr.length rid) := by
        cases h
        rfl
      rw [hattr]
      simp
  · intro st key title data init loc rid align sp fs bord st' prow h1 hget
      hplen hrid h
    unfold STable.add_row at h
    have hm1 : st.max_row + 1 ≠ 1 := by omega
    cases loc with
    | none =>
      obtain ⟨rid2, hrid2, h⟩ := except_ok_of_bind h
      have he := Except.ok.inj (hrid.symm.trans hrid2)
      subst he
      obtain ⟨ra, hloop, hpure⟩ := except_ok_of_bind h
      obtain ⟨row, arow⟩ := ra
      simp only [except_pure] at hpure
      rw [addRowLoop_inherit hm1 hget (List.range st.header.length)
        (fun i hi => by
          rw [hplen]
          exact List.mem_range.mp hi)] at hloop
      have hpair := Except.ok.inj hloop
      rw [Prod.mk.injEq] at hpair
      have hattr : st'.attr = st.attr.take (pyInsertPos st.attr.length rid) ++
          arow :: st.attr.drop (pyInsertPos st.attr.length rid) := by
        cases hpure
        rfl
      rw [hattr, ← hpair.2]
      simp
    | some l =>
      obtain ⟨rid2, hrid2, h⟩ := except_ok_of_bind h
      have he := Except.ok.inj (hrid.symm.trans hrid2)
      subst he
      obtain ⟨ra, hloop, hpure⟩ := except_ok_of_bind h
      obtain ⟨row, arow⟩ := ra
      simp only [except_pure] at hpure
      rw [addRowLoop_inherit hm1 hget (List.range st.header.length)
        (fun i hi => by
          rw [hplen]
          exact List.mem_range.mp hi)] at hloop
      have hpair := Except.ok.inj hloop
      rw [Prod.mk.injEq] at hpair
      have hattr : st'.attr = st.attr.take (pyInsertPos st.attr.length rid) ++
          arow :: st.attr.drop (pyInsertPos st.attr.length rid) := by
        cases hpure
        rfl
      rw [hattr, ← hpair.2]
      simp
  · intro st key title data init loc cid align sp fs bord st' hml hcid h
    unfold STable.add_col at h
    cases loc with
    | none =>
      obtain ⟨cid2, hcid2, h⟩ := except_ok_of_bind h
      have he := Except.ok.inj (hcid.symm.trans hcid2)
      subst he
      obtain ⟨ta, hloop, hpure⟩ := except_ok_of_bind h
      obtain ⟨tbl, att⟩ := ta
      simp only [except_pure] at hpure
      rw [hml] at hloop
      have hchar := addColLoop_char (List.nodup_range _) hloop
      have hst : st'.attr = att := by
        cases hpure
        rfl
      refine ⟨by rw [hst]; exact hchar.2.1, ?_⟩
      intro r arow harow
      have hr : r < st.attr.length := by
        by_contra hc
        rw [List.get?_eq_none.mpr (by omega)] at harow
        exact absurd harow (by simp)
      have hmem : r ∈ List.range st.attr.length := List.mem_range.mpr hr
      have h2 := (hchar.2.2 r).2
      rw [if_pos hmem, harow] at h2
      rw [hst, h2, Option.map_some']
    | some l =>
      obtain ⟨cid2, hcid2, h⟩ := except_ok_of_bind h
      have he := Except.ok.inj (hcid.symm.trans hcid2)
      subst he
      obtain ⟨ta, hloop, hpure⟩ := except_ok_of_bind h
      obtain ⟨tbl, att⟩ := ta
      simp only [except_pure] at hpure
      rw [hml] at hloop
      have hchar := addColLoop_char (List.nodup_range _) hloop
      have hst : st'.attr = att := by
        cases hpure
        rfl
      refine ⟨by rw [hst]; exact hchar.2.1, ?_⟩
      intro r arow harow
      have hr : r < st.attr.length := by
        by_contra hc
        rw [List.get?_eq_none.mpr (by omega)] at harow
        exact absurd harow (by simp)
      have hmem : r ∈ List.range st.attr.length := List.mem_range.mpr hr
      have h2 := (hchar.2.2 r).2
      rw [if_pos hmem, harow] at h2
      rw [hst, h2, Option.map_some']

/-- Witness for C5: the first-row baseline, the wraparound inheritance of
the last row's `Align.BR` attribute when inserting at position 0, and
`add_col`'s non-inheriting fixed defaults, all on concrete tables. -/
theorem C5_witness :
    (wtTab4.add_row (.kstr "r") "" ["v"] "" none .NONE none none none).map
        STable.attr = .ok [[{}, {}]] ∧
    (wtTab1.add_row (.kstr "r1") "" ["y"] "" (some (.pos 0)) .NONE none none
        none).map STable.attr = .ok [[{ align := .BR }], [{ align := .BR }]] ∧
    (wtTab1.add_col (.kstr "b") "B" [] "" none .TL false "\x7b\x7d" none).map
        STable.attr = .ok [[{ align := .BR },
                            { align := .TL, border := none }]] := by
  refine ⟨?_, ?_, ?_⟩
  · cases hr : wtTab4.add_row (.kstr "r") "" ["v"] "" none .NONE none none none with
    | error e =>
      have : (wtTab4.add_row (.kstr "r") "" ["v"] "" none .NONE none none
          none).isOk = true := by decide
      rw [hr] at this
      exact absurd this (by simp [Except.isOk, Except.toBool])
    | ok stA =>
      have hA := C5_attr_inheritance.1 wtTab4 (.kstr "r") "" ["v"] "" none
        (wtTab4.max_row : Int) .NONE none none none stA (by decide) rfl hr
      rw [except_map_ok2, hA]
      rfl
  · cases hr : wtTab1.add_row (.kstr "r1") "" ["y"] "" (some (.pos 0)) .NONE
        none none none with
    | error e =>
      have : (wtTab1.add_row (.kstr "r1") "" ["y"] "" (some (.pos 0)) .NONE
          none none none).isOk = true := by decide
      rw [hr] at this
      exact absurd this (by simp [Except.isOk, Except.toBool])
    | ok stB =>
      have hB := C5_attr_inheritance.2.1 wtTab1 (.kstr "r1") "" ["y"] ""
        (some (.pos 0)) 0 .NONE none none none stB [{ align := .BR }]
        (by decide) (fun arow => rfl) (by decide) rfl hr
      rw [except_map_ok2, hB]
      rfl
  · cases hc : wtTab1.add_col (.kstr "b") "B" [] "" none .TL false "\x7b\x7d" none with
    | error e =>
      have : (wtTab1.add_col (.kstr "b") "B" [] "" none .TL false "\x7b\x7d"
          none).isOk = true := by decide
      rw [hc] at this
      exact absurd this (by simp [Except.isOk, Except.toBool])
    | ok stC =>
      have hC := C5_attr_inheritance.2.2 wtTab1 (.kstr "b") "B" [] "" none
        (wtTab1.max_col : Int) .TL false "\x7b\x7d" none stC (by decide) rfl hc
      rw [except_map_ok2]
      have hC2 := hC.2 0 [{ align := .BR }] (by decide)
      have hClen := hC.1
      have hfin : stC.attr = [[{ align := .BR }, { align := .TL, border := none }]] := by
        have hlen1 : stC.attr.length = 1 := by
          rw [hClen]
          decide
        cases hTT : stC.attr with
        | nil =>
          rw [hTT] at hlen1
          simp at hlen1
        | cons a t =>
          rw [hTT] at hlen1 hC2
          cases t with
          | nil =>
            simp at hC2
            rw [hC2]
            decide
          | cons b t2 =>
            simp at hlen1
      rw [hfin]

/-! ## Claim C2: dimension invariant under mutation -/

/-- C2 (code bug): deleting the only column of a one-row table appends
the synthetic fallback descriptor to the header (length 1) but adds no
cell to the existing grid rows (each of length 0) — the loop over the
grid ran before the fallback was appended — so the column count no
longer matches the cells-per-row count, and the invariant the claim
states is violated. -/
theorem C2_del_col_mismatch :
    (wtTab1.del_col (.pos 0)).map
        (fun s => (s.header.length, s.table.map List.length,
                   s.attr.map List.length, s.index.length, s.max_row)) =
      .ok (1, [0], [0], 1, 1) ∧ (1 : Nat) ≠ 0 :=
  ⟨by decide, by decide⟩

/-! ## Claim C1: column width inference -/

theorem splitChF_ne_nil (sep : List Char) (fuel : Nat) (l : List Char) :
    splitChF sep fuel l ≠ [] := by
  cases l with
  | nil => cases fuel <;> simp [splitChF]
  | cons c rest =>
    cases fuel with
    | zero => simp [splitChF]
    | succ f =>
      rw [splitChF]
      split
      · simp
      · cases hs : splitChF sep f rest <;> simp

theorem splitCh_ne_nil (sep l : List Char) : splitCh sep l ≠ [] :=
  splitChF_ne_nil sep l.length l

theorem headSegsOf_ne_nil (st : STable) (h : HeadAttr) :
    headSegsOf st h ≠ [] := by
  unfold headSegsOf pySplit
  split
  · simp [splitCh_ne_nil]
  · simp

theorem cellSegsD_ne_nil (st : STable) (r c : Nat) :
    cellSegsD st r c ≠ [] := by
  unfold cellSegsD
  dsimp only
  split
  · unfold pySplit
    simp [splitCh_ne_nil]
  · simp

theorem listMax_cons (x : Nat) (xs : List Nat) :
    listMax (x :: xs) = max x (listMax xs) := by
  have haux : ∀ (t : List Nat) (a b : Nat),
      t.foldl max (max a b) = max a (t.foldl max b) := by
    intro t
    induction t with
    | nil => intro a b; simp
    | cons y ys ih =>
      intro a b
      simp only [List.foldl_cons]
      rw [Nat.max_assoc, ih]
  show List.foldl max 0 (x :: xs) = max x (List.foldl max 0 xs)
  simp only [List.foldl_cons]
  rw [Nat.zero_max]
  conv_lhs => rw [← Nat.max_zero x]
  exact haux xs x 0

theorem pyMax_ok_val {l : List Nat} {v : Nat} (h : pyMax l = .ok v) :
    v = listMax l := by
  cases l with
  | nil => exact absurd h (by simp [pyMax])
  | cons x xs =>
    unfold pyMax at h
    cases h
    unfold listMax
    simp only [List.foldl_cons]
    rw [Nat.zero_max]

theorem getD_of_get? {α : Type} {l : List α} {i : Nat} {a : α}
    (h : l.get? i = some a) (d : α) : l.getD i d = a := by
  rw [List.getD_eq_get?, h]
  rfl

theorem listMax_flatMap (rows : List Nat) (f : Nat → List String) :
    listMax ((rows.flatMap f).map String.length) =
      listMax (rows.map fun r => listMax ((f r).map String.length)) := by
  induction rows with
  | nil => simp [listMax]
  | cons r rs ih =>
    rw [List.flatMap_cons, List.map_append, listMax_append, List.map_cons,
      listMax_cons, ih]

theorem ite_gt_eq_max (a b : Nat) : (if a > b then a else b) = max a b := by
  split <;> omega

theorem splitIf_ok {sep : String} (hsep : sep ≠ "") (b : Bool) (s : String) :
    splitIf b s sep = .ok (if b then pySplit s sep else [s]) := by
  unfold splitIf pySplitE
  cases b
  · rfl
  · rw [if_pos rfl, if_neg hsep, if_pos rfl]

/-- Head-data pass characterization: per selected column, the recorded
segments are the (possibly split) title and the initial width is the
maximum of the longest title segment and the fixed width. -/
theorem headPhase_char {st : STable} (hsep : st.sep ≠ "") :
    ∀ {cols : List Nat} {hd : List (List String)} {hc cs0 : List Nat},
      headPhase st cols = .ok (hd, hc, cs0) →
      hd.length = cols.length ∧ cs0.length = cols.length ∧
      ∀ i c, cols.get? i = some c →
        ∃ hh, st.header.get? c = some hh ∧
          hd.get? i = some (headSegsOf st hh) ∧
          cs0.get? i =
            some (max (listMax ((headSegsOf st hh).map String.length)) hh.width) := by
  intro cols
  induction cols with
  | nil =>
    intro hd hc cs0 h
    simp only [headPhase] at h
    cases h
    refine ⟨rfl, rfl, ?_⟩
    intro i c hic
    simp at hic
  | cons c0 cs ih =>
    intro hd hc cs0 h
    simp only [headPhase] at h
    obtain ⟨hh0, hget, h⟩ := except_ok_of_bind h
    obtain ⟨segs, hsegs, h⟩ := except_ok_of_bind h
    obtain ⟨size, hsize, h⟩ := except_ok_of_bind h
    obtain ⟨rest, hrest, h⟩ := except_ok_of_bind h
    obtain ⟨hd2, hc2, cs2⟩ := rest
    simp only [except_pure] at h
    cases h
    have hsegs2 : segs = headSegsOf st hh0 := by
      rw [splitIf_ok hsep] at hsegs
      cases hsegs
      rfl
    have hsz : size = listMax ((headSegsOf st hh0).map String.length) := by
      rw [← hsegs2]
      exact pyMax_ok_val hsize
    obtain ⟨hl1, hl2, hrec⟩ := ih hrest
    refine ⟨by simp [hl1], by simp [hl2], ?_⟩
    intro i c hic
    cases i with
    | zero =>
      simp only [List.get?] at hic
      cases hic
      refine ⟨hh0, pyGet_nat_ok hget, ?_, ?_⟩
      · simp [hsegs2]
      · simp only [List.get?]
        rw [ite_gt_eq_max, hsz]
    | succ i' =>
      simp only [List.get?] at hic
      exact hrec i' c hic

/-- One value-pass cell: the recorded segments are the formatted, split
cell value; the column size grows to the cell's longest segment only for
an auto-width (`width = 0`) column, and only the cell's own column-slot
`i` is touched. -/
theorem valueCellStep_char {st : STable} {r i c : Nat} (hsep : st.sep ≠ "")
    {vrow : List (List String)} {rcs : List Nat} {fp : Bool} {csize : List Nat}
    {out : List (List String) × List Nat × Bool × List Nat}
    (h : valueCellStep st r i c (vrow, rcs, fp, csize) = .ok out) :
    ∃ hh, st.header.get? c = some hh ∧
      out.1 = vrow ++ [cellSegsD st r c] ∧
      out.2.1 = rcs ++ [(cellSegsD st r c).length] ∧
      out.2.2.2.length = csize.length ∧
      (∀ t, t ≠ i → out.2.2.2.get? t = csize.get? t) ∧
      (hh.width = 0 → ∀ cur, csize.get? i = some cur →
        out.2.2.2.get? i = some (max cur (cellMaxD st r c))) ∧
      (hh.width ≠ 0 → out.2.2.2.get? i = csize.get? i) := by
  unfold valueCellStep at h
  obtain ⟨arow, harow, h⟩ := except_ok_of_bind h
  obtain ⟨a, ha, h⟩ := except_ok_of_bind h
  obtain ⟨trow, htrow, h⟩ := except_ok_of_bind h
  obtain ⟨v, hv, h⟩ := except_ok_of_bind h
  obtain ⟨segs, hsegs, h⟩ := except_ok_of_bind h
  obtain ⟨hh, hhh, h⟩ := except_ok_of_bind h
  obtain ⟨csize2, hcs, h⟩ := except_ok_of_bind h
  simp only [except_pure] at h
  cases h
  unfold growIf at hcs
  rw [splitIf_ok hsep] at hsegs
  have hcell : cellSegsD st r c = segs := by
    cases hsegs
    unfold cellSegsD
    dsimp only
    rw [getD_of_get? (pyGet_nat_ok harow) [], getD_of_get? (pyGet_nat_ok ha) {},
      getD_of_get? (pyGet_nat_ok htrow) [], getD_of_get? (pyGet_nat_ok hv) ""]
  refine ⟨hh, pyGet_nat_ok hhh, by simp [hcell], by simp [hcell], ?_, ?_, ?_⟩
  · by_cases hw : hh.width = 0
    · rw [if_pos hw] at hcs
      obtain ⟨size, hsize, hcs⟩ := except_ok_of_bind hcs
      obtain ⟨cur, hcur, hcs⟩ := except_ok_of_bind hcs
      simp only [except_pure] at hcs
      cases hcs
      split <;> simp [List.length_set]
    · rw [if_neg hw] at hcs
      simp only [except_pure] at hcs
      cases hcs
      rfl
  · intro t ht
    by_cases hw : hh.width = 0
    · rw [if_pos hw] at hcs
      obtain ⟨size, hsize, hcs⟩ := except_ok_of_bind hcs
      obtain ⟨cur, hcur, hcs⟩ := except_ok_of_bind hcs
      simp only [except_pure] at hcs
      cases hcs
      split
      · exact List.get?_set_ne _ _ (fun hc => ht hc.symm)
      · rfl
    · rw [if_neg hw] at hcs
      simp only [except_pure] at hcs
      cases hcs
      rfl
  constructor
  · intro hw cur hcur0
    rw [if_pos hw] at hcs
    obtain ⟨size, hsize, hcs⟩ := except_ok_of_bind hcs
    obtain ⟨cur2, hcur2, hcs⟩ := except_ok_of_bind hcs
    simp only [except_pure] at hcs
    cases hcs
    have hc2 : cur2 = cur := by
      have := pyGet_nat_ok hcur2
      rw [hcur0] at this
      cases this
      rfl
    subst hc2
    have hsz : size = cellMaxD st r c := by
      unfold cellMaxD
      rw [hcell]
      exact pyMax_ok_val hsize
    have hilt : i < csize.length := by
      by_contra hcon
      have := pyGet_nat_ok hcur2
      rw [List.get?_eq_none.mpr (by omega)] at this
      exact absurd this (by simp)
    rw [hsz]
    split
    · rename_i hgt
      rw [List.get?_set_eq_of_lt _ hilt]
      congr 1
      omega
    · rename_i hgt
      rw [hcur0]
      congr 1
      omega
  · intro hw
    rw [if_neg hw] at hcs
    simp only [except_pure] at hcs
    cases hcs
    rfl

/-- Value-pass row loop: position `i + pos` of the size list is grown by
exactly its own column's cell (for auto-width columns) and untouched for
fixed-width columns; positions below `i` are never touched. -/
theorem valueRowLoop_char {st : STable} {r : Nat} (hsep : st.sep ≠ "") :
    ∀ (cols : List Nat) (i : Nat) (vrow : List (List String)) (rcs : List Nat)
      (fp : Bool) (csize : List Nat)
      {out : List (List String) × List Nat × Bool × List Nat},
      valueRowLoop st r i cols (vrow, rcs, fp, csize) = .ok out →
      out.2.2.2.length = csize.length ∧
      (∀ t, t < i → out.2.2.2.get? t = csize.get? t) ∧
      (∀ pos c hh, cols.get? pos = some c → st.header.get? c = some hh →
        (hh.width = 0 → ∀ cur, csize.get? (i + pos) = some cur →
          out.2.2.2.get? (i + pos) = some (max cur (cellMaxD st r c))) ∧
        (hh.width ≠ 0 → out.2.2.2.get? (i + pos) = csize.get? (i + pos))) := by
  intro cols
  induction cols with
  | nil =>
    intro i vrow rcs fp csize out h
    simp only [valueRowLoop] at h
    cases h
    refine ⟨rfl, fun t _ => rfl, ?_⟩
    intro pos c hh hpos
    simp at hpos
  | cons c0 rest ih =>
    intro i vrow rcs fp csize out h
    simp only [valueRowLoop] at h
    obtain ⟨acc2, hstep, hrest⟩ := except_ok_of_bind h
    obtain ⟨vrow2, rcs2, fp2, cs2⟩ := acc2
    obtain ⟨hh0, hhh0, _, _, hlen2, hpres2, hgrow2, hkeep2⟩ :=
      valueCellStep_char hsep hstep
    obtain ⟨hlenR, hpresR, hposR⟩ := ih (i + 1) vrow2 rcs2 fp2 cs2 hrest
    refine ⟨by rw [hlenR, hlen2], ?_, ?_⟩
    · intro t ht
      rw [hpresR t (by omega), hpres2 t (by omega)]
    · intro pos c hh hpos hhdr
      cases pos with
      | zero =>
        simp only [List.get?] at hpos
        cases hpos
        have hhe : hh = hh0 := by
          rw [hhh0] at hhdr
          cases hhdr
          rfl
        subst hhe
        constructor
        · intro hw cur hcur
          rw [Nat.add_zero] at hcur ⊢
          rw [hpresR i (by omega)]
          exact hgrow2 hw cur hcur
        · intro hw
          rw [Nat.add_zero]
          rw [hpresR i (by omega), hkeep2 hw]
      | succ p =>
        simp only [List.get?] at hpos
        have hne : i + (p + 1) ≠ i := by omega
        have hmid : cs2.get? (i + (p + 1)) = csize.get? (i + (p + 1)) :=
          hpres2 _ hne
        have hshift : i + 1 + p = i + (p + 1) := by omega
        obtain ⟨hg, hk⟩ := hposR p c hh hpos hhdr
        constructor
        · intro hw cur hcur
          have := hg hw cur (by rw [hshift, hmid]; exact hcur)
          rw [hshift] at this
          exact this
        · intro hw
          have := hk hw
          rw [hshift] at this
          rw [this, hmid]

/-- Value pass over the selected rows: an auto-width column's final size
is its initial size grown by every selected row's cell maximum; a
fixed-width column's size never changes. -/
theorem valuePhase_csize {st : STable} {cols : List Nat} (hsep : st.sep ≠ "") :
    ∀ (rows : List Nat) (vd : List (List (List String))) (vc : List (List Nat))
      (fp : Bool) (cs : List Nat)
      {out : List (List (List String)) × List (List Nat) × Bool × List Nat},
      valuePhase st cols rows (vd, vc, fp, cs) = .ok out →
      out.2.2.2.length = cs.length ∧
      ∀ i c hh, cols.get? i = some c → st.header.get? c = some hh →
        (hh.width = 0 → ∀ cur, cs.get? i = some cur →
          out.2.2.2.get? i =
            some (max cur (listMax (rows.map fun r2 => cellMaxD st r2 c)))) ∧
        (hh.width ≠ 0 → out.2.2.2.get? i = cs.get? i) := by
  intro rows
  induction rows with
  | nil =>
    intro vd vc fp cs out h
    simp only [valuePhase] at h
    cases h
    refine ⟨rfl, ?_⟩
    intro i c hh _ _
    refine ⟨?_, fun _ => rfl⟩
    intro _ cur hcur
    simp only [List.map_nil]
    rw [hcur]
    have : listMax [] = 0 := rfl
    rw [this, Nat.max_zero]
  | cons r rs ih =>
    intro vd vc fp cs out h
    simp only [valuePhase] at h
    obtain ⟨acc2, hrow, hrest⟩ := except_ok_of_bind h
    obtain ⟨vrow2, rcs2, fp2, cs2⟩ := acc2
    obtain ⟨hlen1, _, hpos1⟩ := valueRowLoop_char hsep cols 0 [] [] fp cs hrow
    obtain ⟨hlenR, hposR⟩ := ih _ _ fp2 cs2 hrest
    refine ⟨by rw [hlenR, hlen1], ?_⟩
    intro i c hh hic hhdr
    obtain ⟨hg1, hk1⟩ := hpos1 i c hh (by simpa using hic) hhdr
    obtain ⟨hgR, hkR⟩ := hposR i c hh hic hhdr
    constructor
    · intro hw cur hcur
      have hmid : cs2.get? i = some (max cur (cellMaxD st r c)) := by
        have := hg1 hw cur (by simpa using hcur)
        simpa using this
      have := hgR hw _ hmid
      rw [this, List.map_cons, listMax_cons, Nat.max_assoc]
    · intro hw
      rw [hkR hw]
      have := hk1 hw
      simpa using this

/-- C1 (amended): for an auto-width column (`width = 0`) the rendered
width is the maximum segment length over the header title and every
selected cell's formatted value, exactly as claimed; for a fixed-width
column the rendered width is `max(fixed width, longest header title
segment)` — cell values never grow it, but a header title longer than
the fixed width does, so the width does not always equal the fixed
value. -/
theorem C1_width_amended (st : STable) (cols rows : List Nat)
    (hd : List (List String)) (hc cs0 : List Nat)
    (vd : List (List (List String))) (vc : List (List Nat)) (fp : Bool)
    (cs : List Nat) (hsep : st.sep ≠ "")
    (h1 : headPhase st cols = .ok (hd, hc, cs0))
    (h2 : valuePhase st cols rows ([], [], false, cs0) = .ok (vd, vc, fp, cs)) :
    ∀ i c, cols.get? i = some c →
      ∃ hh, st.header.get? c = some hh ∧
        (hh.width = 0 →
          cs.get? i = some (listMax ((headSegsOf st hh ++
            rows.flatMap fun r => cellSegsD st r c).map String.length))) ∧
        (hh.width ≠ 0 →
          cs.get? i =
            some (max (listMax ((headSegsOf st hh).map String.length)) hh.width)) := by
  intro i c hic
  obtain ⟨_, _, hhead⟩ := headPhase_char hsep h1
  obtain ⟨hh, hhdr, _, hcs0⟩ := hhead i c hic
  obtain ⟨_, hval⟩ := valuePhase_csize hsep rows [] [] false cs0 h2
  obtain ⟨hg, hk⟩ := hval i c hh hic hhdr
  refine ⟨hh, hhdr, ?_, ?_⟩
  · intro hw
    have hcs0' : cs0.get? i =
        some (listMax ((headSegsOf st hh).map String.length)) := by
      rw [hcs0, hw, Nat.max_zero]
    have := hg hw _ hcs0'
    rw [this, List.map_append, listMax_append, listMax_flatMap]
    rfl
  · intro hw
    rw [hk hw, hcs0]

/-- C1 counterexample: a column with fixed width 2 whose header title is
`"abc"` renders at width 3 both in `get_col_width` and in the `print`
width pass — not at the fixed width 2 required by the claim. -/
theorem C1_counterexample :
    wtFix.get_col_width (.pos 0) = .ok 3 ∧
    headPhase wtFix [0] = .ok ([["abc"]], [1], [3]) ∧
    valuePhase wtFix [0] [] ([], [], false, [3]) = .ok ([], [], false, [3]) ∧
    (3 : Nat) ≠ 2 :=
  ⟨by decide, by decide, by decide, by decide⟩

/-- Witness for C1 on a one-auto-width-column, three-row table. -/
theorem C1_witness :
    ∃ hh, wtTab3.header.get? 0 = some hh ∧
      (hh.width = 0 →
        ([1] : List Nat).get? 0 = some (listMax ((headSegsOf wtTab3 hh ++
          [0, 1, 2].flatMap fun r => cellSegsD wtTab3 r 0).map String.length))) ∧
      (hh.width ≠ 0 →
        ([1] : List Nat).get? 0 =
          some (max (listMax ((headSegsOf wtTab3 hh).map String.length)) hh.width)) :=
  C1_width_amended wtTab3 [0] [0, 1, 2] [["A"]] [1] [1]
    [[["x"]], [["y"]], [["z"]]] [[1], [1], [1]] false [1]
    (by decide) (by decide) (by decide) 0 0 (by decide)

/-! ## Claim C4: rendering a zero-row table -/

/-- C4: with all outer borders enabled, rendering an empty row selection
emits exactly the top border, the header block lines, one header divider
directly after the header block, and the bottom border — nothing else.
(The divider and the bottom border are the two prints of the same string
in the empty-table branch.) -/
theorem C4_empty_render (st : STable) (cols : List Nat) (lines : List Line)
    (hb : st.border = { top := true, bottom := true, left := true, right := true })
    (h : st.printTable cols [] = .ok lines) :
    ∃ (d s : String) (hls : List String),
      lines = Line.topBorder d :: (hls.map Line.headerLine ++
        [Line.headerDivider s, Line.bottomBorder s]) := by
  have ht : st.border.top = true := by rw [hb]
  have hbot : st.border.bottom = true := by rw [hb]
  unfold STable.printTable at h
  obtain ⟨hp, h1, h⟩ := except_ok_of_bind h
  obtain ⟨hd0, hrow0, cs0⟩ := hp
  simp only [valuePhase, except_bind_ok] at h
  obtain ⟨headSel, hhs, h⟩ := except_ok_of_bind h
  rw [ht] at h
  simp only [if_pos rfl] at h
  obtain ⟨d, hdiv, h⟩ := except_ok_of_bind h
  simp only [except_bind_ok, except_pure] at h
  obtain ⟨ofs, hofs, h⟩ := except_ok_of_bind h
  obtain ⟨hls, hhb, h⟩ := except_ok_of_bind h
  simp only [List.zip_nil_left, List.map_nil, rowsLoop, except_bind_ok] at h
  obtain ⟨bl, hblp, h⟩ := except_ok_of_bind h
  unfold bottomPhase at hblp
  rw [hbot] at hblp
  rw [if_neg (by simp)] at hblp
  rw [if_pos rfl] at hblp
  obtain ⟨s, hs, hblp⟩ := except_ok_of_bind hblp
  simp only [except_pure] at hblp
  cases hblp
  cases h
  exact ⟨d, s, hls, by simp⟩

/-- Witness for C4 on a concrete zero-row, two-column table. -/
theorem C4_witness :
    ∃ (d s : String) (hls : List String),
      (wtTab4.printAll.toOption.getD []) = Line.topBorder d ::
        (hls.map Line.headerLine ++
          [Line.headerDivider s, Line.bottomBorder s]) := by
  cases hpr : wtTab4.printAll with
  | error e =>
    have : wtTab4.printAll.isOk = true := by decide
    rw [hpr] at this
    exact absurd this (by simp [Except.isOk, Except.toBool])
  | ok lines =>
    have hrows : wtTab4.printAll = wtTab4.printTable (List.range wtTab4.max_col)
        (List.range wtTab4.max_row) := rfl
    have hempty : List.range wtTab4.max_row = ([] : List Nat) := by decide
    have h2 : wtTab4.printTable (List.range wtTab4.max_col) [] = .ok lines := by
      rw [← hempty, ← hrows, hpr]
    obtain ⟨d, s, hls, hfin⟩ := C4_empty_render wtTab4
      (List.range wtTab4.max_col) lines (by decide) h2
    refine ⟨d, s, hls, ?_⟩
    simpa using hfin

/-! ## Claim C3: divider cadence -/

theorem map_rowLine_tags (bl : List String) :
    (bl.map Line.rowLine).map lineTag = List.replicate bl.length Tag.row := by
  induction bl with
  | nil => rfl
  | cons x xs ih => simp [lineTag, ih, List.replicate_succ]

theorem valuePhase_len {st : STable} {cols : List Nat} :
    ∀ (rows : List Nat) (vd : List (List (List String)))
      (vc : List (List Nat)) (fp : Bool) (cs : List Nat)
      {out : List (List (List String)) × List (List Nat) × Bool × List Nat},
      valuePhase st cols rows (vd, vc, fp, cs) = .ok out →
      out.1.length = vd.length + rows.length ∧
      out.2.1.length = vc.length + rows.length := by
  intro rows
  induction rows with
  | nil =>
    intro vd vc fp cs out h
    simp only [valuePhase] at h
    cases h
    simp
  | cons r rs ih =>
    intro vd vc fp cs out h
    simp only [valuePhase] at h
    obtain ⟨acc2, hrow, hrest⟩ := except_ok_of_bind h
    obtain ⟨vrow2, rcs2, fp2, cs2⟩ := acc2
    obtain ⟨l1, l2⟩ := ih _ _ fp2 cs2 hrest
    constructor
    · rw [l1]
      simp
      omega
    · rw [l2]
      simp
      omega

theorem map_lineTag_comp_rowLine (bl : List String) :
    List.map (lineTag ∘ Line.rowLine) bl = List.replicate bl.length Tag.row := by
  induction bl with
  | nil => rfl
  | cons a t ih => simp [lineTag, Function.comp, List.replicate] at ih ⊢; exact ih

/-- The transcript of the row loop, at the tag level: one block of rows
per entry, a header divider on the first iteration, an interior divider
whenever the running count hits the interval. -/
theorem rowsLoop_tags {st : STable} {cols csize : List Nat}
    {ofs : List (String × String)} {headSel : List HeadAttr} {isfp : Bool}
    {row_list : List Nat} :
    ∀ (entries : List (Nat × List (List String) × List Nat)) (j cnt : Nat)
      {ls : List Line},
      rowsLoop st cols csize ofs headSel isfp row_list entries j cnt = .ok ls →
      ∃ bls : List Nat, bls.length = entries.length ∧
        ls.map lineTag = tagSpec st.rdiv j cnt bls := by
  intro entries
  induction entries with
  | nil =>
    intro j cnt ls h
    simp only [rowsLoop] at h
    cases h
    exact ⟨[], rfl, rfl⟩
  | cons e rest ih =>
    intro j cnt ls h
    obtain ⟨r, segsRow, cntRow⟩ := e
    simp only [rowsLoop] at h
    by_cases hj : j = 0
    · rw [if_pos hj] at h
      obtain ⟨al, hal, h⟩ := except_ok_of_bind h
      obtain ⟨s0, hs0, h⟩ := except_ok_of_bind h
      obtain ⟨y0, hy0, h⟩ := except_ok_of_bind h
      simp only [except_pure] at hy0
      cases hy0
      by_cases hdv : rdivEq st.rdiv cnt = true
      · rw [if_pos hdv] at h
        obtain ⟨al2, hal2, h⟩ := except_ok_of_bind h
        obtain ⟨pr, hpr, h⟩ := except_ok_of_bind h
        obtain ⟨pal, hpal, h⟩ := except_ok_of_bind h
        obtain ⟨s1, hs1, h⟩ := except_ok_of_bind h
        obtain ⟨y1, hy1, h⟩ := except_ok_of_bind h
        simp only [except_pure] at hy1
        cases hy1
        obtain ⟨bl, hbl, h⟩ := except_ok_of_bind h
        obtain ⟨tl, htl, h⟩ := except_ok_of_bind h
        simp only [except_pure] at h
        cases h
        obtain ⟨bls, hlen, htags⟩ := ih (j + 1) _ htl
        refine ⟨bl.length :: bls, by simp [hlen], ?_⟩
        simp [tagSpec, hj, hdv, map_rowLine_tags, htags, lineTag,
          map_lineTag_comp_rowLine]
      · rw [if_neg hdv] at h
        obtain ⟨y1, hy1, h⟩ := except_ok_of_bind h
        simp only [except_pure] at hy1
        cases hy1
        obtain ⟨bl, hbl, h⟩ := except_ok_of_bind h
        obtain ⟨tl, htl, h⟩ := except_ok_of_bind h
        simp only [except_pure] at h
        cases h
        obtain ⟨bls, hlen, htags⟩ := ih (j + 1) _ htl
        refine ⟨bl.length :: bls, by simp [hlen], ?_⟩
        simp [tagSpec, hj, hdv, map_rowLine_tags, htags, lineTag,
          map_lineTag_comp_rowLine]
    · rw [if_neg hj] at h
      obtain ⟨y0, hy0, h⟩ := except_ok_of_bind h
      simp only [except_pure] at hy0
      cases hy0
      by_cases hdv : rdivEq st.rdiv cnt = true
      · rw [if_pos hdv] at h
        obtain ⟨al2, hal2, h⟩ := except_ok_of_bind h
        obtain ⟨pr, hpr, h⟩ := except_ok_of_bind h
        obtain ⟨pal, hpal, h⟩ := except_ok_of_bind h
        obtain ⟨s1, hs1, h⟩ := except_ok_of_bind h
        obtain ⟨y1, hy1, h⟩ := except_ok_of_bind h
        simp only [except_pure] at hy1
        cases hy1
        obtain ⟨bl, hbl, h⟩ := except_ok_of_bind h
        obtain ⟨tl, htl, h⟩ := except_ok_of_bind h
        simp only [except_pure] at h
        cases h
        obtain ⟨bls, hlen, htags⟩ := ih (j + 1) _ htl
        refine ⟨bl.length :: bls, by simp [hlen], ?_⟩
        simp [tagSpec, hj, hdv, map_rowLine_tags, htags, lineTag,
          map_lineTag_comp_rowLine]
      · rw [if_neg hdv] at h
        obtain ⟨y1, hy1, h⟩ := except_ok_of_bind h
        simp only [except_pure] at hy1
        cases hy1
        obtain ⟨bl, hbl, h⟩ := except_ok_of_bind h
        obtain ⟨tl, htl, h⟩ := except_ok_of_bind h
        simp only [except_pure] at h
        cases h
        obtain ⟨bls, hlen, htags⟩ := ih (j + 1) _ htl
        refine ⟨bl.length :: bls, by simp [hlen], ?_⟩
        simp [tagSpec, hj, hdv, map_rowLine_tags, htags, lineTag,
          map_lineTag_comp_rowLine]

theorem map_lineTag_comp_headerLine (hls : List String) :
    List.map (lineTag ∘ Line.headerLine) hls =
      List.replicate hls.length Tag.header := by
  induction hls with
  | nil => rfl
  | cons a t ih =>
    simp [lineTag, Function.comp, List.replicate] at ih ⊢
    exact ih

theorem map_headerLine_tags (hls : List String) :
    (hls.map Line.headerLine).map lineTag =
      List.replicate hls.length Tag.header := by
  rw [List.map_map]
  exact map_lineTag_comp_headerLine hls

theorem succ_mod_eq (m k : Nat) (hk : 1 ≤ k) :
    (m + 1) % k = if m % k + 1 = k then 0 else m % k + 1 := by
  have hlt : m % k < k := Nat.mod_lt _ hk
  by_cases h : m % k + 1 = k
  · rw [if_pos h, ← Nat.mod_add_mod, h, Nat.mod_self]
  · rw [if_neg h, ← Nat.mod_add_mod, Nat.mod_eq_of_lt (by omega)]

theorem tagSpecFrom_cons (rdiv : Option Nat) (j b : Nat) (bs : List Nat) :
    tagSpecFrom rdiv j (b :: bs) =
      (if j = 0 then [Tag.hdrDiv] else []) ++
      (if rowDivAt rdiv j then [Tag.rowDiv] else []) ++
      List.replicate b Tag.row ++ tagSpecFrom rdiv (j + 1) bs := by
  simp [tagSpecFrom, List.enumFrom]

theorem tagSpec_none_eq : ∀ (bls : List Nat) (j cnt : Nat),
    tagSpec none j cnt bls = tagSpecFrom none j bls := by
  intro bls
  induction bls with
  | nil => intro j cnt; rfl
  | cons b bs ih =>
    intro j cnt
    rw [tagSpecFrom_cons]
    simp only [tagSpec]
    have h1 : rdivEq none cnt = false := rfl
    have h2 : rowDivAt none j = false := rfl
    have h3 := ih (j + 1) (cnt + 1)
    simp [h1, h2, h3]

theorem tagSpec_some_eq (k : Nat) (hk : 1 ≤ k) :
    ∀ (bls : List Nat) (j cnt : Nat),
      (j = 0 ∧ cnt = 0) ∨ (1 ≤ j ∧ cnt = (j - 1) % k + 1) →
      tagSpec (some k) j cnt bls = tagSpecFrom (some k) j bls := by
  intro bls
  induction bls with
  | nil => intro j cnt _; rfl
  | cons b bs ih =>
    intro j cnt hinv
    rw [tagSpecFrom_cons]
    simp only [tagSpec]
    rcases hinv with ⟨hj, hcnt⟩ | ⟨hj1, hcnt⟩
    · subst hj
      subst hcnt
      have h1 : rdivEq (some k) 0 = false := by
        simp only [rdivEq, beq_eq_false_iff_ne]
        omega
      have h2 : rowDivAt (some k) 0 = false := by
        simp [rowDivAt]
      have h3 := ih 1 1 (Or.inr ⟨Nat.le_refl 1, by simp⟩)
      simp [h1, h2, h3]
    · obtain ⟨m, rfl⟩ : ∃ m, j = m + 1 := ⟨j - 1, by omega⟩
      subst hcnt
      have hmod : (m + 1) % k = if m % k + 1 = k then 0 else m % k + 1 :=
        succ_mod_eq m k hk
      by_cases hcase : m % k + 1 = k
      · have h1 : rdivEq (some k) (m % k + 1) = true := by
          simp [rdivEq, hcase]
        have h2 : rowDivAt (some k) (m + 1) = true := by
          simp [rowDivAt, hmod, hcase]
        have hrec : 1 = (m + 1 + 1 - 1) % k + 1 := by
          simp only [Nat.add_sub_cancel]
          rw [hmod, if_pos hcase]
        have h3 := ih (m + 2) 1 (Or.inr ⟨by omega, hrec⟩)
        simp [h1, h2, h3]
      · have h1 : rdivEq (some k) (m % k + 1) = false := by
          simp [rdivEq, hcase]
        have h2 : rowDivAt (some k) (m + 1) = false := by
          simp [rowDivAt, hmod, hcase]
        have hrec : m % k + 1 + 1 = (m + 1 + 1 - 1) % k + 1 := by
          simp only [Nat.add_sub_cancel]
          rw [hmod, if_neg hcase]
        have h3 := ih (m + 2) (m % k + 1 + 1) (Or.inr ⟨by omega, hrec⟩)
        simp [h1, h2, h3]

theorem tagSpec_eq_closed (rdiv : Option Nat)
    (hk : ∀ k, rdiv = some k → 1 ≤ k) (bls : List Nat) :
    tagSpec rdiv 0 0 bls = tagSpecClosed rdiv bls := by
  cases rdiv with
  | none => exact tagSpec_none_eq bls 0 0
  | some k => exact tagSpec_some_eq k (hk k rfl) bls 0 0 (Or.inl ⟨rfl, rfl⟩)

theorem printTail_tags (st : STable) (cols rows csize : List Nat)
    (hdata : List (List String)) (hrow : List Nat)
    (headSel : List HeadAttr) (isfp : Bool)
    (entries : List (Nat × List (List String) × List Nat))
    (topL : List Line) (lines : List Line)
    (hk : ∀ k, st.rdiv = some k → 1 ≤ k)
    (htop : topL.map lineTag = if st.border.top then [Tag.top] else [])
    (hent : entries.length = rows.length)
    (h : (do
        let ofs ← ofsPhase st cols
        let hls ← headerBlock st cols csize hdata hrow ofs
        let rl ← rowsLoop st cols csize ofs headSel isfp rows entries 0 0
        let bl ← bottomPhase st cols csize headSel rows
        pure (topL ++ hls.map Line.headerLine ++ rl ++ bl)) = .ok lines) :
    ∃ (M : Nat) (bls : List Nat), bls.length = rows.length ∧
      lines.map lineTag = (if st.border.top then [Tag.top] else []) ++
        List.replicate M Tag.header ++ tagSpecClosed st.rdiv bls ++
        (if st.border.bottom then
          (if rows = [] then [Tag.hdrDiv, Tag.bottom] else [Tag.bottom])
        else []) := by
  obtain ⟨ofs, hofs, h⟩ := except_ok_of_bind h
  obtain ⟨hls, hhb, h⟩ := except_ok_of_bind h
  obtain ⟨rl, hrl, h⟩ := except_ok_of_bind h
  obtain ⟨bl, hbl, h⟩ := except_ok_of_bind h
  simp only [except_pure] at h
  cases h
  obtain ⟨bls, hblen, htags⟩ := rowsLoop_tags entries 0 0 hrl
  refine ⟨hls.length, bls, by rw [hblen, hent], ?_⟩
  have hclosed := tagSpec_eq_closed st.rdiv hk bls
  have hbtags : bl.map lineTag =
      (if st.border.bottom then
        (if rows = [] then [Tag.hdrDiv, Tag.bottom] else [Tag.bottom])
      else []) := by
    unfold bottomPhase at hbl
    by_cases hbb : st.border.bottom = true
    · rw [hbb] at hbl
      rw [if_neg (by simp)] at hbl
      by_cases hre : rows = []
      · rw [if_pos hre] at hbl
        obtain ⟨s, hs, hbl⟩ := except_ok_of_bind hbl
        simp only [except_pure] at hbl
        cases hbl
        simp [lineTag, hbb, hre]
      · rw [if_neg hre] at hbl
        obtain ⟨rl0, hrl0, hbl⟩ := except_ok_of_bind hbl
        obtain ⟨al0, hal0, hbl⟩ := except_ok_of_bind hbl
        obtain ⟨s, hs, hbl⟩ := except_ok_of_bind hbl
        simp only [except_pure] at hbl
        cases hbl
        simp [lineTag, hbb, hre]
    · simp only [Bool.not_eq_true] at hbb
      rw [hbb] at hbl
      rw [if_pos (by simp)] at hbl
      simp only [except_pure] at hbl
      cases hbl
      simp [hbb]
  simp [List.map_append, htop, map_headerLine_tags,
    map_lineTag_comp_headerLine, htags, hclosed, hbtags]

/-- C3 (amended): interior dividers fall before the data rows at 0-based
positions that are non-zero multiples of the configured interval `k` —
i.e. before the (k+1)-th, (2k+1)-th, ... data row, every `k` rows after
the first divider — not at the (k+1), 2(k+1), ... cadence of the claim;
with the interval unset, no interior divider is emitted; with at least
one data row, the header divider is emitted exactly once, directly after
the header block, as the first tag of the first loop entry. -/
theorem C3_amended (st : STable) (cols rows : List Nat) (lines : List Line)
    (hk : ∀ k, st.rdiv = some k → 1 ≤ k)
    (h : st.printTable cols rows = .ok lines) :
    ∃ (M : Nat) (bls : List Nat), bls.length = rows.length ∧
      lines.map lineTag =
        (if st.border.top then [Tag.top] else []) ++
        List.replicate M Tag.header ++
        tagSpecClosed st.rdiv bls ++
        (if st.border.bottom then
          (if rows = [] then [Tag.hdrDiv, Tag.bottom] else [Tag.bottom])
        else []) := by
  unfold STable.printTable at h
  obtain ⟨hp, h1, h⟩ := except_ok_of_bind h
  obtain ⟨hd0, hrow0, cs0⟩ := hp
  obtain ⟨vp, h2, h⟩ := except_ok_of_bind h
  obtain ⟨vdata, vcnt, isfp, csize⟩ := vp
  obtain ⟨hlv, hlc⟩ := valuePhase_len rows [] [] false cs0 h2
  simp only [List.length_nil, Nat.zero_add] at hlv hlc
  obtain ⟨headSel, hhs, h⟩ := except_ok_of_bind h
  have hent : ((rows.zip (vdata.zip vcnt)).map
      fun e => (e.1, e.2.1, e.2.2)).length = rows.length := by
    simp only [List.length_map, List.length_zip, hlv, hlc]
    omega
  by_cases hbt : st.border.top = true
  · rw [hbt] at h
    simp only [if_pos rfl] at h
    obtain ⟨s, hsdiv, h⟩ := except_ok_of_bind h
    simp only [except_bind_ok, except_pure] at h
    exact printTail_tags st cols rows csize hd0 hrow0 headSel isfp _
      [Line.topBorder s] lines hk (by simp [lineTag, hbt]) hent h
  · simp only [Bool.not_eq_true] at hbt
    rw [hbt] at h
    simp only [Bool.false_eq_true, if_false] at h
    simp only [except_bind_ok, except_pure] at h
    exact printTail_tags st cols rows csize hd0 hrow0 headSel isfp _
      [] lines hk (by simp [hbt]) hent h

/-- C3 counterexample: with `row_divider_interval = 1` and three data
rows, the renderer emits interior dividers before the 2nd AND the 3rd
data row (positions `k+1, 2k+1, ...` = every row after the first), not
only before the `(k+1)`-th and `2(k+1)`-th (= 2nd and 4th) rows as the
claim's cadence predicts. -/
theorem C3_counterexample :
    (wtTab3.printAll.map fun ls => ls.map lineTag) =
      .ok [Tag.top, Tag.header, Tag.hdrDiv, Tag.row, Tag.rowDiv, Tag.row,
        Tag.rowDiv, Tag.row, Tag.bottom] ∧
    ([Tag.top, Tag.header, Tag.hdrDiv, Tag.row, Tag.rowDiv, Tag.row,
        Tag.rowDiv, Tag.row, Tag.bottom] : List Tag) ≠
      [Tag.top, Tag.header, Tag.hdrDiv, Tag.row, Tag.rowDiv, Tag.row,
        Tag.row, Tag.bottom] :=
  ⟨by decide, by decide⟩

/-- Witness for C3 (amended) on a three-row table with interval 2. -/
theorem C3_witness :
    ∃ (M : Nat) (bls : List Nat), bls.length = ([0, 1, 2] : List Nat).length ∧
      (wtTab3b.printAll.toOption.getD []).map lineTag =
        (if wtTab3b.border.top then [Tag.top] else []) ++
        List.replicate M Tag.header ++
        tagSpecClosed wtTab3b.rdiv bls ++
        (if wtTab3b.border.bottom then
          (if ([0, 1, 2] : List Nat) = [] then [Tag.hdrDiv, Tag.bottom]
           else [Tag.bottom])
        else []) := by
  cases hpr : wtTab3b.printAll with
  | error e =>
    have : wtTab3b.printAll.isOk = true := by decide
    rw [hpr] at this
    exact absurd this (by simp [Except.isOk, Except.toBool])
  | ok lines =>
    have hrows : List.range wtTab3b.max_row = ([0, 1, 2] : List Nat) := by decide
    have h2 : wtTab3b.printTable (List.range wtTab3b.max_col) [0, 1, 2] =
        .ok lines := by
      rw [← hrows]
      exact hpr
    have hk : ∀ k, wtTab3b.rdiv = some k → 1 ≤ k := by
      intro k hkk
      have hkk2 : some 2 = some k := hkk
      injection hkk2 with hv
      omega
    obtain ⟨M, bls, hlen, htags⟩ := C3_amended wtTab3b
      (List.range wtTab3b.max_col) [0, 1, 2] lines hk h2
    exact ⟨M, bls, hlen, by simpa using htags⟩

end SimpleTools
